import Mathlib

/-!
Verification of the Graine admission-control / sandboxed-execution /
multi-objective-selection pipeline (`graine/` package).

Shallow embedding conventions:
* Python dicts become association lists `List (String × _)` (keys unique on
  the image of real dicts; lookups take the first matching key).
* Python floats become `ℚ` (the claims under study only compare and add
  these values; no rounding behaviour is relied upon).
* Functions that raise become `Except`-valued functions.
-/

namespace Graine

/-! ## JSON-like values (untyped Python data handled by the kernel) -/

/-- Untyped value as handled by the kernel verifier: `None`, booleans,
numbers (ints and floats collapsed into `ℚ`), strings, lists and dicts. -/
inductive Value where
  | vnone : Value
  | vbool : Bool → Value
  | vnum : ℚ → Value
  | vstr : String → Value
  | vlist : List Value → Value
  | vdict : List (String × Value) → Value
deriving Inhabited

/-- First-match lookup in a dict (Python `d[k]` / `d.get(k)` on dicts with
unique keys). -/
def dictGet (d : List (String × Value)) (k : String) : Option Value :=
  (d.find? (fun p => p.1 = k)).map (fun p => p.2)

/-- Python numeric coercion: `bool` is an `int` in Python, so `True` counts
as `1` and `False` as `0` in comparisons; other values are not numbers. -/
def Value.asNum : Value → Option ℚ
  | .vbool b => some (if b then 1 else 0)
  | .vnum q => some q
  | _ => none

/-- Python truthiness of a value (`if value:`). -/
def Value.truthy : Value → Bool
  | .vnone => false
  | .vbool b => b
  | .vnum q => q ≠ 0
  | .vstr s => s ≠ ""
  | .vlist l => ¬ l.isEmpty
  | .vdict d => ¬ d.isEmpty

/-! ## Patch DSL (`graine/evolver/dsl.py`) -/

/-- Modelled from the spec: the fixed enumerated operator-name set.  In the
source it is loaded from `configs/operators.yaml`, a file whose contents are
not among the sources; the spec (§3) fixes the enumerated set, and it agrees
with the keys of `OP_CLASSES` in `graine/evolver/dsl.py` and with the kernel
whitelist `OPERATIONS` in `graine/kernel/interpreter.py`. -/
def OPERATOR_NAMES : List String :=
  ["CONST_TUNE", "EQ_REWRITE", "INLINE", "EXTRACT", "DEADCODE_ELIM", "MICRO_MEMO"]

def THETA_DIFF_LIMIT : ℚ := 10

def CYCLOMATIC_LIMIT : Int := 10

/-- Untyped operation dict fed to `Operation.from_dict` (field `op` plus the
payload fields declared by the operation dataclasses). -/
structure OpDict where
  op : Option String := none
  delta : Option ℚ := none
  bounds : Option (List ℚ) := none
  rule_id : Option String := none

/-- A constructed `Operation` (the tagged dataclass family collapsed into one
record: `ConstTune` carries `delta`/`bounds`, `EqRewrite` carries `rule_id`,
the rest carry no payload; which payload fields an input may carry is
enforced by `Operation.fromDict` below). -/
structure Operation where
  name : String
  delta : ℚ := 0
  bounds : List ℚ := []
  rule_id : String := ""

/-- Exceptions out of the DSL pipeline: the named `DSLValidationError`s, and
the `TypeError` that the dataclass call `op_cls(name=name, **kwargs)` raises
when the input carries a payload keyword the named dataclass does not
declare (the payload string records the offending keyword). -/
inductive DslErr where
  | validation : String → DslErr
  | typeError : String → DslErr
deriving DecidableEq

/-- The payload-field names declared by each operation dataclass
(`OP_CLASSES`): `ConstTune` declares `delta` and `bounds`, `EqRewrite`
declares `rule_id`, and `Inline`, `Extract`, `DeadcodeElim` and `MicroMemo`
declare none (as would the base `Operation` fallback for a name outside
`OP_CLASSES`). -/
def opClassFields (name : String) : List String :=
  if name = "CONST_TUNE" then ["delta", "bounds"]
  else if name = "EQ_REWRITE" then ["rule_id"]
  else []

/-- `Operation.from_dict`: rejects any name not in `OPERATOR_NAMES` (missing
`op` gives Python `None`, which is also not in the set); then calls
`op_cls(name=name, **kwargs)`, which raises `TypeError` when some present
payload keyword is not a field of the named dataclass (the offending keyword
is taken in the fixed field order of `OpDict`), and otherwise fills the
absent fields with the dataclass defaults. -/
def Operation.fromDict (d : OpDict) : Except DslErr Operation :=
  match d.op with
  | some name =>
      if name ∈ OPERATOR_NAMES then
        if d.delta.isSome ∧ "delta" ∉ opClassFields name then
          .error (.typeError "unexpected keyword argument delta")
        else if d.bounds.isSome ∧ "bounds" ∉ opClassFields name then
          .error (.typeError "unexpected keyword argument bounds")
        else if d.rule_id.isSome ∧ "rule_id" ∉ opClassFields name then
          .error (.typeError "unexpected keyword argument rule_id")
        else
          .ok { name := name, delta := d.delta.getD 0, bounds := d.bounds.getD [],
                rule_id := d.rule_id.getD "" }
      else .error (.validation ("Unknown operator: " ++ name))
  | none => .error (.validation "Unknown operator: None")

/-- Untyped patch dict fed to `Patch.from_dict`. -/
structure PatchDict where
  target : List (String × String) := []
  ops : List OpDict := []
  theta_diff : Option ℚ := none
  purity : Option Bool := none
  cyclomatic : Option Int := none

/-- A constructed `Patch`. -/
structure Patch where
  target : List (String × String)
  ops : List Operation
  theta_diff : ℚ
  purity : Bool
  cyclomatic : Int

/-- The list comprehension `[Operation.from_dict(d) for d in data.get("ops", [])]`:
sequential construction, failing at the first bad operation. -/
def opsFromDicts : List OpDict → Except DslErr (List Operation)
  | [] => .ok []
  | d :: rest =>
      match Operation.fromDict d with
      | .error e => .error e
      | .ok o =>
          match opsFromDicts rest with
          | .error e => .error e
          | .ok os => .ok (o :: os)

/-- `Patch.from_dict`: builds the operations first (so an unknown operator
or an unaccepted payload keyword is rejected before any numeric field is
even read), then fills the numeric fields with the documented defaults
`theta_diff=0.0`, `purity=True`, `cyclomatic=0`. -/
def Patch.fromDict (data : PatchDict) : Except DslErr Patch :=
  match opsFromDicts data.ops with
  | .error e => .error e
  | .ok os =>
      .ok { target := data.target, ops := os,
            theta_diff := data.theta_diff.getD 0,
            purity := data.purity.getD true,
            cyclomatic := data.cyclomatic.getD 0 }

/-- `Patch.validate`: the three process-local checks, in source order. -/
def Patch.validate (p : Patch) : Except DslErr Bool :=
  if p.theta_diff > THETA_DIFF_LIMIT then .error (.validation "theta_diff exceeds limit")
  else if ¬ p.purity then .error (.validation "Patch must be pure")
  else if p.cyclomatic > CYCLOMATIC_LIMIT then
    .error (.validation "Cyclomatic complexity exceeds limit")
  else .ok true

/-- `Patch.from_dict` followed by `Patch.validate`. -/
def buildAndValidate (data : PatchDict) : Except DslErr Bool :=
  match Patch.fromDict data with
  | .error e => .error e
  | .ok p => p.validate

/-- Whether an untyped operation dict names a known operator. -/
def opKnown (d : OpDict) : Bool :=
  match d.op with
  | some n => n ∈ OPERATOR_NAMES
  | none => false

/-- Whether `Operation.from_dict` accepts an untyped operation dict: a known
name, and every payload field present is declared by that name's
dataclass. -/
def opAccepted (d : OpDict) : Bool :=
  match d.op with
  | some n => n ∈ OPERATOR_NAMES ∧
      (d.delta.isSome = true → "delta" ∈ opClassFields n) ∧
      (d.bounds.isSome = true → "bounds" ∈ opClassFields n) ∧
      (d.rule_id.isSome = true → "rule_id" ∈ opClassFields n)
  | none => false

/-! ## Kernel verifier (`graine/kernel/verifier.py`) -/

/-- Error outcomes of `verify_patch`: the named `VerificationError`s, plus the
unnamed Python exceptions the code can also raise (`KeyError`, `IndexError`,
`TypeError`). -/
inductive VErr where
  | verification : String → VErr
  | keyError : String → VErr
  | indexError : VErr
  | typeError : VErr
deriving DecidableEq

/-- The module names of `FORBIDDEN_IMPORT_RE`. -/
def FORBIDDEN_MODULES : List String :=
  ["socket", "ssl", "http", "urllib", "requests", "ftplib", "subprocess", "ctypes", "cffi"]

/-- Python regex `\w` (ASCII part; the claims only involve ASCII payloads). -/
def isWordChar (c : Char) : Bool := c.isAlphanum ∨ c = '_'

/-- Python regex `\s`. -/
def isSpaceChar (c : Char) : Bool :=
  c = ' ' ∨ c = '\t' ∨ c = '\n' ∨ c = '\r' ∨ c = '\x0b' ∨ c = '\x0c'

/-- Drop an expected literal from the head of the character list, or fail. -/
def dropLit : List Char → List Char → Option (List Char)
  | [], cs => some cs
  | _ :: _, [] => none
  | a :: as, c :: cs => if c = a then dropLit as cs else none

/-- Match `(socket|ssl|...)\b` at the head of the character list. -/
def matchModuleAt (cs : List Char) : Bool :=
  FORBIDDEN_MODULES.any (fun m =>
    match dropLit m.toList cs with
    | some rest =>
        match rest with
        | [] => true
        | c :: _ => ¬ isWordChar c
    | none => false)

/-- Match `kw\s+(socket|...)\b` at the head of the character list (no
forbidden module name begins with a whitespace character, so taking the
maximal whitespace run is equivalent to the regex backtracking). -/
def matchKwAt (kw : String) (cs : List Char) : Bool :=
  match dropLit kw.toList cs with
  | some rest =>
      ¬ (rest.takeWhile isSpaceChar).isEmpty ∧ matchModuleAt (rest.dropWhile isSpaceChar)
  | none => false

/-- Match the body of `FORBIDDEN_IMPORT_RE` at the head of the character
list (the leading `\b` is handled by the caller). -/
def forbiddenAt (cs : List Char) : Bool :=
  matchKwAt "import" cs ∨ matchKwAt "from" cs

/-- Regex search: try the pattern at every position whose left context is a
word boundary (`prevWord` records whether the previous character was a word
character; the pattern itself starts with a word character, so `\b` holds
exactly when the previous character is not one). -/
def searchForbiddenAux : Bool → List Char → Bool
  | _, [] => false
  | prevWord, c :: rest =>
      (¬ prevWord ∧ forbiddenAt (c :: rest)) ∨ searchForbiddenAux (isWordChar c) rest

/-- `str.lower()` (ASCII case mapping; the Unicode-only differences from
Python are outside the payloads at issue).  `String.toLower` itself is
defined by well-founded recursion on byte positions and does not reduce
definitionally, hence this list-based equivalent. -/
def pyLower (s : String) : String :=
  String.mk (s.toList.map Char.toLower)

/-- `FORBIDDEN_IMPORT_RE.search(text)`: the verifier lowercases the text
before searching and the pattern is all-lowercase, so searching the lowered
text models the `IGNORECASE` flag. -/
def containsForbiddenImport (s : String) : Bool :=
  searchForbiddenAux false (pyLower s).toList

/-- Lazy capture of `(.+?)\1` after the opening quote: the characters up to
the first occurrence of the quote character (`.` does not match a newline,
so a newline aborts the match). -/
def captureAux (q : Char) : List Char → Option (List Char)
  | [] => none
  | c :: rest =>
      if c = q then some []
      else if c = '\n' then none
      else (captureAux q rest).map (fun l => c :: l)

/-- Match `OPEN_RE = open\((['\"])(.+?)\1` at the head of the character list;
returns the captured path and the number of characters the whole match
consumed. -/
def tryOpenAt : List Char → Option (String × ℕ)
  | 'o' :: 'p' :: 'e' :: 'n' :: '(' :: q :: c0 :: rest =>
      if (q = '\'' ∨ q = '"') ∧ c0 ≠ '\n' then
        match captureAux q rest with
        | some tailChars => some (String.mk (c0 :: tailChars), 8 + tailChars.length)
        | none => none
      else none
  | _ => none

/-- `OPEN_RE.finditer`: non-overlapping left-to-right matches, resuming after
each match.  The fuel is the list length; every step consumes at least one
character, so the fuel never runs out before the input does. -/
def scanOpenAux : ℕ → List Char → List String
  | 0, _ => []
  | _ + 1, [] => []
  | fuel + 1, c :: rest =>
      match tryOpenAt (c :: rest) with
      | some (p, k) => p :: scanOpenAux fuel ((c :: rest).drop k)
      | none => scanOpenAux fuel rest

def scanOpen (cs : List Char) : List String := scanOpenAux cs.length cs

def ALLOWED_PATH_STARTS : List String := ["runs/", "target/"]

/-- `_is_allowed_path` (`str.startswith` expressed through `dropLit`, since
`String.startsWith` is byte-position based and does not reduce
definitionally). -/
def isAllowedPath (p : String) : Bool :=
  ALLOWED_PATH_STARTS.any (fun pre => (dropLit pre.toList p.toList).isSome)

mutual
/-- `_check_forbidden_content`, iteration over one op dict
(`for key, value in op.items()`). -/
def checkFields : List (String × Value) → Except VErr Unit
  | [] => .ok ()
  | (key, value) :: rest =>
      match checkEntry key value with
      | .error e => .error e
      | .ok _ => checkFields rest

/-- One `(key, value)` item of `_check_forbidden_content`: strings are
scanned (forbidden import first, then `open(` paths on the lowered text,
then the `path`/`file` key check on the original value); dict values recurse;
list values recurse into their dict elements only. -/
def checkEntry (key : String) (value : Value) : Except VErr Unit :=
  match value with
  | .vstr s =>
      let text := pyLower s
      if containsForbiddenImport s then .error (.verification "forbidden import detected")
      else if (scanOpen text.toList).any (fun p => ¬ isAllowedPath p) then
        .error (.verification "I/O outside allowed directories")
      else if (key = "path" ∨ key = "file") ∧ ¬ isAllowedPath s then
        .error (.verification "I/O outside allowed directories")
      else .ok ()
  | .vdict d => checkFields d
  | .vlist l => checkElems l
  | _ => .ok ()

/-- `_check_forbidden_content([v for v in value if isinstance(v, dict)])`:
the source filters a list down to its dict elements before recursing, which
is the same as walking the list and skipping every non-dict element. -/
def checkElems : List Value → Except VErr Unit
  | [] => .ok ()
  | .vdict d :: rest =>
      match checkFields d with
      | .error e => .error e
      | .ok _ => checkElems rest
  | _ :: rest => checkElems rest
end

/-- `_check_forbidden_content(ops)`: the top-level argument is the patch ops
list, whose elements the schema has already forced to be dicts. -/
def checkForbiddenContent (ops : List Value) : Except VErr Unit := checkElems ops

/-- `PATCH_SCHEMA` property `type`: string, const "Patch". -/
def schemaTypeField (pd : List (String × Value)) : Except VErr Unit :=
  match dictGet pd "type" with
  | none => .ok ()
  | some v =>
      match v with
      | .vstr s => if s = "Patch" then .ok () else .error (.verification "patch.type must be Patch")
      | _ => .error (.verification "patch.type must be of type string")

/-- `PATCH_SCHEMA` property `target`: object with required string fields
`file` and `function`. -/
def schemaTargetField (pd : List (String × Value)) : Except VErr Unit :=
  match dictGet pd "target" with
  | none => .ok ()
  | some v =>
      match v with
      | .vdict td =>
          if (dictGet td "file").isNone then
            .error (.verification "patch.target missing required field file")
          else if (dictGet td "function").isNone then
            .error (.verification "patch.target missing required field function")
          else
            match dictGet td "file" with
            | some (.vstr _) =>
                match dictGet td "function" with
                | some (.vstr _) => .ok ()
                | some _ => .error (.verification "patch.target.function must be of type string")
                | none => .ok ()
            | some _ => .error (.verification "patch.target.file must be of type string")
            | none => .ok ()
      | _ => .error (.verification "patch.target must be of type object")

def schemaOpsItems : List Value → Except VErr Unit
  | [] => .ok ()
  | item :: rest =>
      match item with
      | .vdict d =>
          if (dictGet d "op").isNone then
            .error (.verification "patch.ops item missing required field op")
          else schemaOpsItems rest
      | _ => .error (.verification "patch.ops item must be an object")

/-- `PATCH_SCHEMA` property `ops`: array whose items are objects with a
required `op` field. -/
def schemaOpsField (pd : List (String × Value)) : Except VErr Unit :=
  match dictGet pd "ops" with
  | none => .ok ()
  | some v =>
      match v with
      | .vlist items => schemaOpsItems items
      | _ => .error (.verification "patch.ops must be of type array")

/-- `PATCH_SCHEMA` property `limits`: object (no further constraints). -/
def schemaLimitsField (pd : List (String × Value)) : Except VErr Unit :=
  match dictGet pd "limits" with
  | none => .ok ()
  | some v =>
      match v with
      | .vdict _ => .ok ()
      | _ => .error (.verification "patch.limits must be of type object")

/-- `_validate_schema(patch, PATCH_SCHEMA, "patch")`, the generic walker
instantiated at the fixed `PATCH_SCHEMA`: `patch` must be a dict with
required fields `type`, `target`, `ops`; `type` must be the string "Patch";
`target` must be a dict with required string fields `file` and `function`;
`ops` must be a list of dicts each having an `op` key; `limits`, when
present, must be a dict. -/
def validatePatchSchema (patch : Value) : Except VErr Unit :=
  match patch with
  | .vdict pd =>
      if (dictGet pd "type").isNone then
        .error (.verification "patch missing required field type")
      else if (dictGet pd "target").isNone then
        .error (.verification "patch missing required field target")
      else if (dictGet pd "ops").isNone then
        .error (.verification "patch missing required field ops")
      else
        match schemaTypeField pd with
        | .error e => .error e
        | .ok _ =>
            match schemaTargetField pd with
            | .error e => .error e
            | .ok _ =>
                match schemaOpsField pd with
                | .error e => .error e
                | .ok _ => schemaLimitsField pd
  | _ => .error (.verification "patch must be an object")

/-- Python `a <= b` on kernel values: numbers (including bools) compare
numerically, strings lexicographically, anything else raises `TypeError`. -/
def pyLE (a b : Value) : Except VErr Bool :=
  match a.asNum, b.asNum with
  | some x, some y => .ok (x ≤ y)
  | _, _ =>
      match a, b with
      | .vstr x, .vstr y => .ok (x ≤ y)
      | _, _ => .error .typeError

/-- Python `a > b` on kernel values. -/
def pyGT (a b : Value) : Except VErr Bool :=
  match a.asNum, b.asNum with
  | some x, some y => .ok (y < x)
  | _, _ =>
      match a, b with
      | .vstr x, .vstr y => .ok (y < x)
      | _, _ => .error .typeError

/-- Python `v[i]` for a nonnegative index: lists index into their elements
(`IndexError` out of range), strings into one-character strings. -/
def pyIndex (v : Value) (i : ℕ) : Except VErr Value :=
  match v with
  | .vlist l =>
      match l.get? i with
      | some x => .ok x
      | none => .error .indexError
  | .vstr s =>
      match s.toList.get? i with
      | some c => .ok (.vstr (String.mk [c]))
      | none => .error .indexError
  | _ => .error .typeError

/-- The display of an operator-name value inside the
`f"operator {name} not allowed"` message. -/
def nameRepr : Value → String
  | .vstr s => s
  | .vnone => "None"
  | .vbool true => "True"
  | .vbool false => "False"
  | _ => "?"

/-- Kernel whitelist: the keys of `OPERATIONS` in
`graine/kernel/interpreter.py` (`ALLOWED_OPS = set(OPERATIONS.keys())`). -/
def ALLOWED_OPS : List String :=
  ["CONST_TUNE", "EQ_REWRITE", "INLINE", "EXTRACT", "DEADCODE_ELIM", "MICRO_MEMO"]

/-- The `CONST_TUNE` branch of the per-op loop of `verify_patch`:
`delta`/`bounds` must be present, then the chained comparison
`bounds[0] <= delta <= bounds[1]` runs left to right (so `bounds[1]` is only
read when `bounds[0] <= delta` already holds). -/
def constTuneCheck (fields : List (String × Value)) : Except VErr Unit :=
  let delta := (dictGet fields "delta").getD .vnone
  let bounds := (dictGet fields "bounds").getD .vnone
  match delta, bounds with
  | .vnone, _ => .error (.verification "CONST_TUNE requires delta and bounds")
  | _, .vnone => .error (.verification "CONST_TUNE requires delta and bounds")
  | _, _ =>
      match pyIndex bounds 0 with
      | .error e => .error e
      | .ok b0 =>
          match pyLE b0 delta with
          | .error e => .error e
          | .ok false => .error (.verification "delta outside bounds")
          | .ok true =>
              match pyIndex bounds 1 with
              | .error e => .error e
              | .ok b1 =>
                  match pyLE delta b1 with
                  | .error e => .error e
                  | .ok false => .error (.verification "delta outside bounds")
                  | .ok true => .ok ()

/-- One iteration of the `for op in ops` loop of `verify_patch`. -/
def checkOneOp (op : Value) : Except VErr Unit :=
  let fields := match op with
    | .vdict d => d
    | _ => []
  let nameV := (dictGet fields "op").getD .vnone
  match nameV with
  | .vstr n =>
      if n ∈ ALLOWED_OPS then
        if n = "CONST_TUNE" then constTuneCheck fields else .ok ()
      else .error (.verification ("operator " ++ n ++ " not allowed"))
  | other => .error (.verification ("operator " ++ nameRepr other ++ " not allowed"))

/-- The whole `for op in ops` loop. -/
def checkOpsLoop : List Value → Except VErr Unit
  | [] => .ok ()
  | op :: rest =>
      match checkOneOp op with
      | .error e => .error e
      | .ok _ => checkOpsLoop rest

/-- One limit check of the form `if x and x > LIMIT: raise`. -/
def quotaCheck (v : Value) (lim : ℚ) (msg : String) (rest : Except VErr Unit) :
    Except VErr Unit :=
  if v.truthy then
    match pyGT v (.vnum lim) with
    | .error e => .error e
    | .ok true => .error (.verification msg)
    | .ok false => rest
  else rest

/-- The `limits` checks at the end of `verify_patch` (constitutional limits
`DIFF_LIMIT=12`, `OPS_LIMIT=1000`, `CPU_LIMIT=1.0`, `RAM_LIMIT=2^30`). -/
def checkLimits (pd : List (String × Value)) : Except VErr Unit :=
  let ld := match (dictGet pd "limits").getD (.vdict []) with
    | .vdict l => l
    | _ => []
  match pyGT ((dictGet ld "diff_max").getD (.vnum 0)) (.vnum 12) with
  | .error e => .error e
  | .ok true => .error (.verification "diff_max exceeds limit of 12")
  | .ok false =>
      quotaCheck ((dictGet ld "ops").getD ((dictGet ld "ops_max").getD (.vnum 0))) 1000
        "ops exceeds limit of 1000" <|
      quotaCheck ((dictGet ld "time_max").getD (.vnum 0)) 1
        "time_max exceeds limit of 1.0" <|
      quotaCheck ((dictGet ld "cpu").getD (.vnum 0)) 1
        "cpu exceeds limit of 1.0" <|
      match dictGet ld "ram" with
      | none => .ok ()
      | some .vnone => .ok ()
      | some ram =>
          match pyGT ram (.vnum (1024 * 1024 * 1024)) with
          | .error e => .error e
          | .ok true => .error (.verification "ram exceeds limit")
          | .ok false => .ok ()

/-- A whitelisted target zone as produced by `load_zones` (the fields
`verify_patch` reads, plus the per-zone operator list the spec talks about;
the zone configuration file itself is not among the sources, so the zone
list is a parameter everywhere). -/
structure Zone where
  file : String
  function : String
  operators : List String := []

/-- Python `z["file"] == target["file"]`: a string only equals a string. -/
def strEqVal (s : String) (v : Value) : Bool :=
  match v with
  | .vstr t => s = t
  | _ => false

/-- Whether a zone matches the patch target (the predicate inside the
`any(...)` of `verify_patch`). -/
def zoneMatches (z : Zone) (td : List (String × Value)) : Bool :=
  strEqVal z.file ((dictGet td "file").getD .vnone) ∧
  strEqVal z.function ((dictGet td "function").getD .vnone)

/-- The target value as a field dict (`target` is a dict after the schema
check; anything else contributes no matchable fields). -/
def targetAsDict (v : Value) : List (String × Value) :=
  match v with
  | .vdict td => td
  | _ => []

/-- The ops value as a list (always a list after the schema check). -/
def opsAsList (v : Value) : List Value :=
  match v with
  | .vlist l => l
  | _ => []

/-- The body of `verify_patch` after the schema check and target lookup:
target whitelist check, non-empty ops, per-op whitelist and `CONST_TUNE`
checks, forbidden content scan, then the limit checks. -/
def verifyTargetAndOps (zones : List Zone) (td : List (String × Value))
    (pd : List (String × Value)) : Except VErr Unit :=
  if ¬ zones.any (fun z => zoneMatches z td) then
    .error (.verification "target not whitelisted")
  else
    let opsL := opsAsList ((dictGet pd "ops").getD (.vlist []))
    if opsL.isEmpty then .error (.verification "ops must be a non-empty list")
    else
      match checkOpsLoop opsL with
      | .error e => .error e
      | .ok _ =>
          match checkForbiddenContent opsL with
          | .error e => .error e
          | .ok _ => checkLimits pd

/-- `verify_patch(patch)` with the zone list made explicit (the source loads
it from `configs/zones.yaml` each call): schema check, then
`verifyTargetAndOps` on the extracted target dict. -/
def verifyPatch (zones : List Zone) (patch : Value) : Except VErr Unit :=
  match validatePatchSchema patch with
  | .error e => .error e
  | .ok _ =>
      let pd := match patch with
        | .vdict d => d
        | _ => []
      match dictGet pd "target" with
      | none => .error (.keyError "target")
      | some targetV => verifyTargetAndOps zones (targetAsDict targetV) pd

/-! ## Quota-enforced executor (`graine/kernel/interpreter.py`)

The wall-clock interval timer armed by `start` raises asynchronously and is
outside a shallow embedding; the op-count and memory checks of `tick` are
modelled exactly.  The current resident set size queried from the OS is an
explicit parameter. -/

/-- `_LimitManager` state. -/
structure LimState where
  max_ops : ℕ
  mem_limit : ℕ
  ops : ℕ

/-- Runtime failures of the executor. -/
inductive ExecErr where
  | opLimit : ExecErr
  | ramLimit : ExecErr
  | forbidden : String → ExecErr
deriving DecidableEq

/-- `_LimitManager.start(op_limit, timeout, mem_limit)`: resets the counter
(timer arming elided). -/
def startLim (op_limit : ℕ) (mem_limit : ℕ) : LimState :=
  { max_ops := op_limit, mem_limit := mem_limit, ops := 0 }

/-- `_LimitManager.tick()`: increments the counter (the increment persists
even when a limit fires), raises on `ops > max_ops` first, and only
otherwise compares the resident set size against the memory limit. -/
def tick (st : LimState) (rss : ℕ) : LimState × Option ExecErr :=
  let st2 : LimState := { st with ops := st.ops + 1 }
  if st2.ops > st2.max_ops then (st2, some .opLimit)
  else if rss > st2.mem_limit then (st2, some .ramLimit)
  else (st2, none)

/-- `execute(op)`: dispatch on the `op` name against the `OPERATIONS`
whitelist (every whitelisted implementation carries the `@pure` marker, so
the defensive not-marked-pure branch is unreachable); the operator bodies
are no-ops for quota purposes, and the post-op `tick` runs the quota
checks. -/
def executeOp (op : Value) (st : LimState) (rss : ℕ) : LimState × Option ExecErr :=
  let fields := match op with
    | .vdict d => d
    | _ => []
  match (dictGet fields "op").getD .vnone with
  | .vstr n => if n ∈ ALLOWED_OPS then tick st rss else (st, some (.forbidden n))
  | other => (st, some (.forbidden (nameRepr other)))

/-- Executing a list of operations in sequence through `execute`, counting
how many operations completed (operator body plus its post-op `tick`) and
returning the first failure. -/
def runOps : List Value → LimState → ℕ → ℕ × Option ExecErr
  | [], _, _ => (0, none)
  | op :: rest, st, rss =>
      match executeOp op st rss with
      | (st2, none) =>
          let r := runOps rest st2 rss
          (r.1 + 1, r.2)
      | (_, some e) => (0, some e)

/-! ## Audit logger (`graine/kernel/logger.py`)

`log` serialises the record with `json.dumps(record, sort_keys=True)` and
hashes payload + previous hash with SHA-256.  Both are implemented here:
SHA-256 over the UTF-8 bytes per FIPS 180-4, and the canonical key-sorted
serialisation per `json.dumps` defaults (`ensure_ascii`, separators
`", "` / `": "`).  Integral numbers serialise exactly; the shortest-roundtrip
decimal rendering of non-integral Python floats is outside the rational
model and such a number is rendered as `num/den` (kernel log records carry
only strings and integers). -/

def w32 (n : ℕ) : ℕ := n % 4294967296

def rotr (k n : ℕ) : ℕ := w32 ((n >>> k) ||| (n <<< (32 - k)))

def wnot (n : ℕ) : ℕ := 4294967295 - n % 4294967296

def smallSigma0 (x : ℕ) : ℕ := (rotr 7 x ^^^ rotr 18 x) ^^^ (x >>> 3)

def smallSigma1 (x : ℕ) : ℕ := (rotr 17 x ^^^ rotr 19 x) ^^^ (x >>> 10)

def bigSigma0 (x : ℕ) : ℕ := (rotr 2 x ^^^ rotr 13 x) ^^^ rotr 22 x

def bigSigma1 (x : ℕ) : ℕ := (rotr 6 x ^^^ rotr 11 x) ^^^ rotr 25 x

def chF (x y z : ℕ) : ℕ := (x &&& y) ^^^ (wnot x &&& z)

def majF (x y z : ℕ) : ℕ := ((x &&& y) ^^^ (x &&& z)) ^^^ (y &&& z)

/-- The 64 SHA-256 round constants. -/
def SHA_K : List ℕ :=
  [1116352408, 1899447441, 3049323471, 3921009573, 961987163, 1508970993,
   2453635748, 2870763221, 3624381080, 310598401, 607225278, 1426881987,
   1925078388, 2162078206, 2614888103, 3248222580, 3835390401, 4022224774,
   264347078, 604807628, 770255983, 1249150122, 1555081692, 1996064986,
   2554220882, 2821834349, 2952996808, 3210313671, 3336571891, 3584528711,
   113926993, 338241895, 666307205, 773529912, 1294757372, 1396182291,
   1695183700, 1986661051, 2177026350, 2456956037, 2730485921, 2820302411,
   3259730800, 3345764771, 3516065817, 3600352804, 4094571909, 275423344,
   430227734, 506948616, 659060556, 883997877, 958139571, 1322822218,
   1537002063, 1747873779, 1955562222, 2024104815, 2227730452, 2361852424,
   2428436474, 2756734187, 3204031479, 3329325298]

/-- The SHA-256 initial hash value. -/
def SHA_H0 : List ℕ :=
  [1779033703, 3144134277, 1013904242, 2773480762,
   1359893119, 2600822924, 528734635, 1541459225]

/-- Big-endian byte decomposition of `n` into `k` bytes. -/
def toBytesBE (k : ℕ) (n : ℕ) : List ℕ :=
  (List.range k).map (fun i => (n >>> (8 * (k - 1 - i))) % 256)

/-- SHA-256 padding: append `0x80`, zero bytes to 56 mod 64, then the bit
length as 8 big-endian bytes. -/
def padMessage (msg : List ℕ) : List ℕ :=
  msg ++ [0x80] ++ List.replicate ((119 - msg.length % 64) % 64) 0 ++
    toBytesBE 8 (8 * msg.length)

/-- Big-endian 32-bit words from bytes. -/
def bytesToWords : List ℕ → List ℕ
  | b0 :: b1 :: b2 :: b3 :: rest =>
      (((b0 * 256 + b1) * 256 + b2) * 256 + b3) :: bytesToWords rest
  | _ => []

/-- Split a word list into 16-word blocks. -/
def chunks16 : List ℕ → List (List ℕ)
  | [] => []
  | w :: ws => ((w :: ws).take 16) :: chunks16 ((w :: ws).drop 16)
termination_by l => l.length
decreasing_by simp [List.length_drop]; omega

/-- One step of the message-schedule extension. -/
def scheduleStep (ws : List ℕ) : List ℕ :=
  let n := ws.length
  ws ++ [w32 (smallSigma1 (ws.getD (n - 2) 0) + ws.getD (n - 7) 0 +
              smallSigma0 (ws.getD (n - 15) 0) + ws.getD (n - 16) 0)]

/-- Extend a 16-word block to the 64-word message schedule. -/
def schedule (ws : List ℕ) : List ℕ :=
  (List.range 48).foldl (fun acc _ => scheduleStep acc) ws

/-- One SHA-256 compression round on the eight working variables. -/
def compressStep (s : List ℕ) (kw : ℕ × ℕ) : List ℕ :=
  match s with
  | [a, b, c, d, e, f, g, h] =>
      let t1 := w32 (h + bigSigma1 e + chF e f g + kw.1 + kw.2)
      let t2 := w32 (bigSigma0 a + majF a b c)
      [w32 (t1 + t2), a, b, c, w32 (d + t1), e, f, g]
  | other => other

/-- Compress one block into the running hash. -/
def compressBlock (hs : List ℕ) (block : List ℕ) : List ℕ :=
  let final := (SHA_K.zip (schedule block)).foldl compressStep hs
  (hs.zip final).map (fun p => w32 (p.1 + p.2))

/-- SHA-256 of a byte string, as the eight 32-bit state words. -/
def sha256Words (msg : List ℕ) : List ℕ :=
  (chunks16 (bytesToWords (padMessage msg))).foldl compressBlock SHA_H0

def hexDigit (n : ℕ) : Char := "0123456789abcdef".toList.getD n '0'

def wordToHex (n : ℕ) : List Char :=
  (List.range 8).map (fun i => hexDigit ((n >>> (4 * (7 - i))) % 16))

/-- `hashlib.sha256(bytes).hexdigest()`. -/
def sha256Hex (msg : List ℕ) : String :=
  String.mk ((sha256Words msg).flatMap wordToHex)

/-- UTF-8 encoding of one character. -/
def encodeCharUtf8 (c : Char) : List ℕ :=
  let n := c.toNat
  if n < 0x80 then [n]
  else if n < 0x800 then [0xc0 ||| (n >>> 6), 0x80 ||| (n &&& 0x3f)]
  else if n < 0x10000 then
    [0xe0 ||| (n >>> 12), 0x80 ||| ((n >>> 6) &&& 0x3f), 0x80 ||| (n &&& 0x3f)]
  else
    [0xf0 ||| (n >>> 18), 0x80 ||| ((n >>> 12) &&& 0x3f),
     0x80 ||| ((n >>> 6) &&& 0x3f), 0x80 ||| (n &&& 0x3f)]

/-- `str.encode()`. -/
def utf8Bytes (s : String) : List ℕ := s.toList.flatMap encodeCharUtf8

def uEscape4 (n : ℕ) : List Char :=
  '\\' :: 'u' :: (List.range 4).map (fun i => hexDigit ((n >>> (4 * (3 - i))) % 16))

/-- JSON `\uXXXX` escape (surrogate pair beyond the BMP). -/
def uEscape (n : ℕ) : List Char :=
  if n ≤ 0xffff then uEscape4 n
  else uEscape4 (0xd800 + ((n - 0x10000) >>> 10)) ++ uEscape4 (0xdc00 + (n - 0x10000) % 1024)

/-- `json.dumps` escaping of one string character (`ensure_ascii=True`). -/
def escapeChar (c : Char) : List Char :=
  if c = '"' then ['\\', '"']
  else if c = '\\' then ['\\', '\\']
  else if c = '\n' then ['\\', 'n']
  else if c = '\r' then ['\\', 'r']
  else if c = '\t' then ['\\', 't']
  else if c = '\x08' then ['\\', 'b']
  else if c = '\x0c' then ['\\', 'f']
  else if c.toNat < 0x20 ∨ c.toNat > 0x7e then uEscape c.toNat
  else [c]

/-- A JSON string literal. -/
def quoteJson (s : String) : String :=
  String.mk ('"' :: s.toList.flatMap escapeChar ++ ['"'])

/-- JSON rendering of a number: exact for integral values; non-integral
rationals (standing in for Python floats) rendered as `num/den`, see the
section comment. -/
def renderNum (q : ℚ) : String :=
  if q.den = 1 then toString q.num else toString q.num ++ "/" ++ toString q.den

def joinComma : List String → String
  | [] => ""
  | [s] => s
  | s :: rest => s ++ ", " ++ joinComma rest

/-- Key order used by `sort_keys=True` (Python sorts dict items by key; its
sort is stable, and so is insertion sort, so the two agree). -/
def sortFields (d : List (String × Value)) : List (String × Value) :=
  d.insertionSort (fun a b => a.1 ≤ b.1)

/-- `json.dumps(v, sort_keys=True)` with default separators. -/
def jsonDumps : Value → String
  | .vnone => "null"
  | .vbool true => "true"
  | .vbool false => "false"
  | .vnum q => renderNum q
  | .vstr s => quoteJson s
  | .vlist l =>
      "[" ++ joinComma (l.attach.map (fun x => jsonDumps x.1)) ++ "]"
  | .vdict d =>
      "\x7b" ++ joinComma ((sortFields d).attach.map
        (fun x => quoteJson x.1.1 ++ ": " ++ jsonDumps x.1.2)) ++ "\x7d"
termination_by v => sizeOf v
decreasing_by
  · have := List.sizeOf_lt_of_mem x.2
    simp only [Value.vlist.sizeOf_spec]
    omega
  · have hmem : x.1 ∈ d := by
      have hperm := List.perm_insertionSort (fun a b => a.1 ≤ b.1) d
      exact hperm.mem_iff.mp x.2
    have h1 := List.sizeOf_lt_of_mem hmem
    have h2 : sizeOf x.1.2 < sizeOf x.1 := by
      obtain ⟨a, b⟩ := x.1
      simp
    simp only [Value.vdict.sizeOf_spec]
    omega

/-! ## Audit logger state (`JsonlLogger`) -/

/-- Write-or-append of one key (`{**record, "prev": p, "hash": h}` keeps an
existing key in place with the new value, otherwise appends it). -/
def setKV (d : List (String × Value)) (k : String) (v : Value) : List (String × Value) :=
  if d.any (fun p => p.1 = k) then d.map (fun p => if p.1 = k then (k, v) else p)
  else d ++ [(k, v)]

/-- In-memory view of a `JsonlLogger`: the chain head and the entries
appended so far (each entry one JSONL line). -/
structure LogState where
  head : String
  entries : List (List (String × Value))

/-- The 64-zero-hex chain sentinel. -/
def ZERO_HASH : String := String.mk (List.replicate 64 '0')

/-- `JsonlLogger.log(record)`: hash the canonical payload concatenated with
the previous hash, append the merged entry, advance the head. -/
def logStep (st : LogState) (record : List (String × Value)) : LogState :=
  let payload := jsonDumps (.vdict record)
  let h := sha256Hex (utf8Bytes (payload ++ st.head))
  { head := h,
    entries := st.entries ++ [setKV (setKV record "prev" (.vstr st.head)) "hash" (.vstr h)] }

/-- `JsonlLogger.__init__`: the chain head is recovered from the parsed last
line of an existing file.  `none` models a missing file, an empty file, or an
unreadable/unparsable tail — all of which fall back to the zero sentinel (a
non-dict parsed line raises inside the `try` and is caught the same way).  A
parsed dict without a `hash` key keeps the sentinel (`data.get("hash",
prev)`); a non-string `hash` value is also modelled as the sentinel, while
Python would store the ill-typed value and fail at the next `log` — the
claims under study do not touch that corner. -/
def initHead : Option Value → String
  | none => ZERO_HASH
  | some (.vdict d) =>
      match dictGet d "hash" with
      | some (.vstr h) => h
      | _ => ZERO_HASH
  | some _ => ZERO_HASH

/-! ## Multi-objective selector (`graine/evolver/select.py`)

Python's `list.sort`/`sorted` are stable sorts; so is `List.insertionSort`,
and two stable sorts with the same key order agree, so `insertionSort`
models them.  `Candidate` is `@dataclass(eq=False)`: candidates are
dict-keyed and compared by identity, which the embedding models by working
on positions into the population list.  Python raises `KeyError` when
`dominates` reads an objective missing from the other candidate; the model
defaults such lookups to `0` (the claims only compare candidates carrying
the same objective keys). -/

structure Candidate where
  patch : Option Patch := none
  objectives : List (String × ℚ) := []
  thresholds : Option (List (String × Bool)) := none
  name : String := ""
deriving Inhabited

/-- `Candidate.meets_thresholds` (`None` and the empty dict are both falsy,
giving `True`; `all` over an empty dict is also `True`). -/
def meetsThresholds (c : Candidate) : Bool :=
  match c.thresholds with
  | none => true
  | some t => t.all (fun p => p.2)

/-- `b.objectives[m]` (missing key defaulted, see the section comment). -/
def getObj (c : Candidate) (m : String) : ℚ :=
  (((c.objectives.find? (fun p => p.1 = m))).map (fun p => p.2)).getD 0

/-- `dominates(a, b)`: every objective of `a` is `≤` in `b`, at least one is
strictly `<`. -/
def dominates (a b : Candidate) : Bool :=
  a.objectives.all (fun p => p.2 ≤ getObj b p.1) ∧
  a.objectives.any (fun p => p.2 < getObj b p.1)

/-- `dominates` lifted to positions in the population. -/
def domIdx (pop : List Candidate) (i j : ℕ) : Bool :=
  match pop.get? i, pop.get? j with
  | some a, some b => dominates a b
  | _, _ => false

/-- `S[p]`: the positions `q ≠ p` dominated by `p`, in population order. -/
def sList (pop : List Candidate) (p : ℕ) : List ℕ :=
  (List.range pop.length).filter (fun q => p ≠ q ∧ domIdx pop p q)

/-- `n[p]`: how many `q ≠ p` dominate `p` (the `elif` branch, so only
counted when `p` does not dominate `q`). -/
def nCount (pop : List Candidate) (p : ℕ) : ℕ :=
  ((List.range pop.length).filter
    (fun q => p ≠ q ∧ ¬ domIdx pop p q ∧ domIdx pop q p)).length

/-- `n[q] -= 1; if n[q] == 0: next_front.append(q)` over `S[p]` (counts are
integers, as in Python, where they may go negative). -/
def decStep (pop : List Candidate) (st : List ℤ × List ℕ) (p : ℕ) : List ℤ × List ℕ :=
  (sList pop p).foldl
    (fun st q =>
      let c := st.1.getD q 0 - 1
      (st.1.set q c, if c = 0 then st.2 ++ [q] else st.2))
    st

/-- The front-peeling loop of `fast_non_dominated_sort`.  Nonempty fronts
are pairwise disjoint (counts only ever decrease, so a position is appended
at most once), so `pop.length + 1` rounds of fuel always outlast the
`while fronts[i]` loop. -/
def fndsLoop (pop : List Candidate) : ℕ → List ℤ → List ℕ → List (List ℕ)
  | 0, _, _ => []
  | fuel + 1, counts, current =>
      if current.isEmpty then []
      else
        current ::
          (let st := current.foldl (decStep pop) (counts, [])
           fndsLoop pop fuel st.1 st.2)

/-- `fast_non_dominated_sort(population)` as lists of positions. -/
def fnds (pop : List Candidate) : List (List ℕ) :=
  fndsLoop pop (pop.length + 1)
    ((List.range pop.length).map (fun p => (nCount pop p : ℤ)))
    ((List.range pop.length).filter (fun p => nCount pop p = 0))

/-- Objective value of the candidate at position `i`. -/
def objVal (pop : List Candidate) (i : ℕ) (m : String) : ℚ :=
  getObj (pop.getD i default) m

def distSet (d : List (ℕ × WithTop ℚ)) (k : ℕ) (v : WithTop ℚ) : List (ℕ × WithTop ℚ) :=
  d.map (fun p => if p.1 = k then (k, v) else p)

def distAdd (d : List (ℕ × WithTop ℚ)) (k : ℕ) (v : WithTop ℚ) : List (ℕ × WithTop ℚ) :=
  d.map (fun p => if p.1 = k then (k, p.2 + v) else p)

def distGet (d : List (ℕ × WithTop ℚ)) (k : ℕ) : WithTop ℚ :=
  (((d.find? (fun p => p.1 = k))).map (fun p => p.2)).getD 0

/-- One objective pass of `crowding_distance`: stable in-place sort of the
front by that objective, infinite distance at the two boundaries
(`float('inf')` becomes `⊤` in `WithTop ℚ`), `(next - prev) / denom` added
for interior members, a zero range replaced by denominator `1`. -/
def crowdingPass (pop : List Candidate) (st : List ℕ × List (ℕ × WithTop ℚ)) (m : String) :
    List ℕ × List (ℕ × WithTop ℚ) :=
  let sorted := st.1.insertionSort (fun i j => objVal pop i m ≤ objVal pop j m)
  match sorted with
  | [] => (sorted, st.2)
  | first :: _ =>
      let lastI := sorted.getLastD first
      let d2 := distSet (distSet st.2 first ⊤) lastI ⊤
      let minM := objVal pop first m
      let maxM := objVal pop lastI m
      let denom : ℚ := if maxM - minM = 0 then 1 else maxM - minM
      let d3 := (List.range sorted.length).foldl
        (fun dd i =>
          if 1 ≤ i ∧ i + 1 < sorted.length then
            distAdd dd (sorted.getD i 0)
              (((objVal pop (sorted.getD (i + 1) 0) m -
                 objVal pop (sorted.getD (i - 1) 0) m) / denom : ℚ))
          else dd)
        d2
      (sorted, d3)

/-- The non-dominated-sort path of `select`: first front, crowding distances
(the passes mutate the front order, which then seeds the final stable
descending sort), winner is the head of the final order. -/
def nsgaChoose (pop : List Candidate) : Option Candidate :=
  let first := (fnds pop).headD []
  let objs : List String := match first with
    | [] => []
    | i :: _ => (pop.getD i default).objectives.map (fun p => p.1)
  let st := objs.foldl (crowdingPass pop)
    (first, first.map (fun i => (i, (0 : WithTop ℚ))))
  let sortedDesc := st.1.insertionSort (fun i j => distGet st.2 j ≤ distGet st.2 i)
  match sortedDesc with
  | [] => none
  | i :: _ => pop.get? i

/-- `select(candidates, prev_best)`: threshold gate, conservative-elitism
short-circuit, otherwise NSGA-II over feasible ∪ {elite}. -/
def select (candidates : List Candidate) (prevBest : Option Candidate) : Option Candidate :=
  let feasible := candidates.filter meetsThresholds
  let elite := match prevBest with
    | some pb => if meetsThresholds pb then some pb else none
    | none => none
  if feasible.isEmpty ∧ elite.isNone then none
  else
    match elite with
    | some e =>
        if ¬ feasible.any (fun c => dominates c e) then some e
        else nsgaChoose (feasible ++ [e])
    | none => nsgaChoose feasible

/-! ## Meta-governance (`graine/meta/dsl.py`, `graine/meta/evolve.py`) -/

def MAX_POPULATION_CAP : Int := 100

def WEIGHT_TOLERANCE : ℚ := 1 / 1000000

/-- `abs(x)` on rationals, written out so that closed instances of the
validator reduce inside the kernel. -/
def ratAbs (q : ℚ) : ℚ := if q < 0 then -q else q

def DIFF_LIMIT : Int := 12

/-- The mutable evolutionary policy. -/
structure MetaSpec where
  weights : List (String × ℚ) := []
  operator_mix : List (String × ℚ) := []
  population_cap : Int := 0
  selection_strategy : String := "elitism"
  diff_max : Int := DIFF_LIMIT
  forbidden : List String := []

/-- `MetaSpec.validate`, checks in source order: weights (present, in
`[0,1]`, sum `1` within tolerance), operator mix (present, known keys,
non-negative, sum `1`), population cap in `(0, MAX]`, known strategy,
`diff_max` under the constitutional ceiling, `forbidden` empty. -/
def MetaSpec.validate (s : MetaSpec) : Except String Bool :=
  if s.weights.isEmpty then .error "Weights must be provided"
  else if s.weights.any (fun p => p.2 < 0 ∨ p.2 > 1) ∨
      ratAbs (((s.weights.map (fun p => p.2)).sum) - 1) > WEIGHT_TOLERANCE then
    .error "Weights must be within [0,1] and sum to 1"
  else if s.operator_mix.isEmpty then .error "Operator mix must be provided"
  else if s.operator_mix.any (fun p => p.1 ∉ OPERATOR_NAMES) then
    .error "Unknown operator in mix"
  else if s.operator_mix.any (fun p => p.2 < 0) ∨
      ratAbs (((s.operator_mix.map (fun p => p.2)).sum) - 1) > WEIGHT_TOLERANCE then
    .error "Operator mix must be non-negative and sum to 1"
  else if ¬ (0 < s.population_cap ∧ s.population_cap ≤ MAX_POPULATION_CAP) then
    .error "Population cap exceeds constitutional limit"
  else if s.selection_strategy ≠ "elitism" then .error "Unknown selection strategy"
  else if s.diff_max > DIFF_LIMIT then .error "diff_max exceeds constitutional limit"
  else if ¬ s.forbidden.isEmpty then .error "Cannot relax constitutional forbiddens"
  else .ok true

/-- `_renormalize`: clamp negatives to zero, divide by the total, or
distribute uniformly when everything clamped to zero; empty dicts are left
alone. -/
def renormalize (dist : List (String × ℚ)) : List (String × ℚ) :=
  if dist.isEmpty then dist
  else
    let clamped := dist.map (fun p => (p.1, if p.2 < 0 then 0 else p.2))
    let total := (clamped.map (fun p => p.2)).sum
    if total = 0 then dist.map (fun p => (p.1, (1 : ℚ) / dist.length))
    else clamped.map (fun p => (p.1, p.2 / total))

/-- `dist[key] += d` on a dict with unique keys. -/
def bump (dist : List (String × ℚ)) (key : String) (d : ℚ) : List (String × ℚ) :=
  dist.map (fun p => if p.1 = key then (p.1, p.2 + d) else p)

/-- `rng.choice(list(dist.keys()))`: an arbitrary index reduced modulo the
key count, which ranges over exactly the choices the rng can make. -/
def chooseKey (dist : List (String × ℚ)) (idx : ℕ) : String :=
  (dist.map (fun p => p.1)).getD (idx % dist.length) ""

/-- `propose_mutation(spec, delta, rng)` with the randomness made explicit:
`wIdx`/`mIdx` select the perturbed weight and operator-mix keys,
`wDelta`/`mDelta` are the sampled perturbations (`rng.uniform(-delta,
delta)`; the theorems hold for every rational, a superset), and `popUp`
is `rng.choice([-1, 1])`.  The copied spec has one weight and one mix entry
perturbed and renormalised, the population cap moved by `±1` and clamped
into `[1, MAX_POPULATION_CAP]`, everything else untouched; the result is
validated before being returned. -/
def proposeMutation (spec : MetaSpec) (wIdx : ℕ) (wDelta : ℚ) (mIdx : ℕ) (mDelta : ℚ)
    (popUp : Bool) : Except String MetaSpec :=
  let w1 := if 1 ≤ spec.weights.length then
      renormalize (bump spec.weights (chooseKey spec.weights wIdx) wDelta)
    else spec.weights
  let m1 := if 1 ≤ spec.operator_mix.length then
      renormalize (bump spec.operator_mix (chooseKey spec.operator_mix mIdx) mDelta)
    else spec.operator_mix
  let s2 : MetaSpec :=
    { spec with
      weights := w1, operator_mix := m1,
      population_cap :=
        max 1 (min MAX_POPULATION_CAP (spec.population_cap + (if popUp then 1 else -1))) }
  match s2.validate with
  | .ok _ => .ok s2
  | .error e => .error e

/-! ## Snapshot replay (`graine/meta/phantom.py`) -/

/-- One history entry of a snapshot (`err`/`cost` read with
`get(_, 0.0)`, so both fields are optional). -/
structure HistEntry where
  err : Option ℚ := none
  cost : Option ℚ := none
deriving DecidableEq

/-- One parsed snapshot file: the embedded `MetaSpec` and the history. -/
structure Snapshot where
  meta : MetaSpec := {}
  history : List HistEntry := []

inductive ReplayErr where
  | metaInvalid : String → ReplayErr
  | regression : ReplayErr
deriving DecidableEq

structure ReplayMetrics where
  robustness : ℚ
  safety : ℚ
deriving DecidableEq

/-- Whether a snapshot regresses: its last history entry has a strictly
larger `err` or `cost` than its first (empty histories are skipped by the
source). -/
def regressesB (s : Snapshot) : Bool :=
  match s.history with
  | [] => false
  | first :: hrest =>
      let last := (first :: hrest).getLastD first
      last.err.getD 0 > first.err.getD 0 ∨ last.cost.getD 0 > first.cost.getD 0

/-- The per-snapshot loop of `replay_snapshots`: validate the embedded meta
spec (any failure aborts the whole replay), skip empty histories, abort on
the first regression, otherwise accumulate the final `err` and `cost`. -/
def replayGo : List Snapshot → ℚ → ℚ → Except ReplayErr (ℚ × ℚ)
  | [], te, tc => .ok (te, tc)
  | s :: rest, te, tc =>
      match s.meta.validate with
      | .error e => .error (.metaInvalid e)
      | .ok _ =>
          match s.history with
          | [] => replayGo rest te tc
          | first :: hrest =>
              let last := (first :: hrest).getLastD first
              if last.err.getD 0 > first.err.getD 0 ∨ last.cost.getD 0 > first.cost.getD 0 then
                .error .regression
              else replayGo rest (te + last.err.getD 0) (tc + last.cost.getD 0)

/-- Code-point lexicographic order on character lists, as Python compares
strings. -/
def charListLe : List Char → List Char → Bool
  | [], _ => true
  | _ :: _, [] => false
  | a :: as, b :: bs =>
      if a.toNat < b.toNat then true
      else if b.toNat < a.toNat then false
      else charListLe as bs

/-- Python string `<=`: lexicographic by code point. -/
def strLe (a b : String) : Bool := charListLe a.toList b.toList

/-- `sorted(Path(directory).glob("*.json"))`: the snapshot files sorted
lexicographically by name (the input models the directory as a list of
`(filename, parsed snapshot)` pairs). -/
def sortByName (files : List (String × Snapshot)) : List (String × Snapshot) :=
  files.insertionSort (fun a b => strLe a.1 b.1)

/-- `replay_snapshots(k, directory)`: up to `k` files in lexicographic
order; on success the accumulated final metrics averaged over the number of
processed files (`len(paths)`, which counts snapshots with empty histories
too). -/
def replaySnapshots (k : ℕ) (files : List (String × Snapshot)) : Except ReplayErr ReplayMetrics :=
  let paths := (sortByName files).take k
  match replayGo (paths.map (fun p => p.2)) 0 0 with
  | .error e => .error e
  | .ok (te, tc) =>
      let n := paths.length
      .ok { robustness := if n = 0 then 0 else te / n,
            safety := if n = 0 then 0 else tc / n }

/-! ## Helper lemmas -/

deriving instance DecidableEq for Except

theorem fromDict_ok_iff (d : OpDict) :
    (∃ o, Operation.fromDict d = .ok o) ↔ opAccepted d = true := by
  unfold Operation.fromDict opAccepted
  cases d.op with
  | none => simp
  | some n =>
      simp only []
      split_ifs <;> simp_all [not_and, not_not]

theorem opsFromDicts_ok_iff (l : List OpDict) :
    (∃ os, opsFromDicts l = .ok os) ↔ ∀ o ∈ l, opAccepted o = true := by
  induction l with
  | nil => simp [opsFromDicts]
  | cons d rest ih =>
      simp only [List.mem_cons]
      constructor
      · rintro ⟨os, hos⟩
        unfold opsFromDicts at hos
        cases hd : Operation.fromDict d with
        | error e => rw [hd] at hos; exact absurd hos (by simp)
        | ok o =>
            rw [hd] at hos
            cases hr : opsFromDicts rest with
            | error e => rw [hr] at hos; exact absurd hos (by simp)
            | ok os2 =>
                have hk := (fromDict_ok_iff d).mp ⟨o, hd⟩
                exact fun x hx => hx.elim (fun hxd => hxd ▸ hk)
                  (fun hxr => (ih.mp ⟨os2, hr⟩) x hxr)
      · intro h
        obtain ⟨o, ho⟩ := (fromDict_ok_iff d).mpr (h d (Or.inl rfl))
        obtain ⟨os, hos⟩ := ih.mpr (fun x hx => h x (Or.inr hx))
        exact ⟨o :: os, by unfold opsFromDicts; rw [ho, hos]⟩

theorem opsFromDicts_error (l : List OpDict) (h : ∃ o ∈ l, opAccepted o = false) :
    ∃ e, opsFromDicts l = .error e := by
  cases hr : opsFromDicts l with
  | error e => exact ⟨e, rfl⟩
  | ok os =>
      obtain ⟨o, ho, hko⟩ := h
      have := (opsFromDicts_ok_iff l).mp ⟨os, hr⟩ o ho
      rw [hko] at this
      exact absurd this (by simp)

theorem fromDict_error_shape (d : OpDict) (e : DslErr)
    (h : Operation.fromDict d = .error e) :
    (∃ n, e = .validation ("Unknown operator: " ++ n)) ∨ ∃ f, e = .typeError f := by
  unfold Operation.fromDict at h
  cases hop : d.op with
  | none =>
      rw [hop] at h
      simp only [] at h
      exact Or.inl ⟨"None", (Except.error.inj h).symm⟩
  | some n =>
      rw [hop] at h
      simp only [] at h
      split_ifs at h
      all_goals
        first
          | exact Except.noConfusion h
          | exact Or.inr ⟨_, (Except.error.inj h).symm⟩
          | exact Or.inl ⟨n, (Except.error.inj h).symm⟩

theorem opsFromDicts_error_shape (l : List OpDict) :
    ∀ e, opsFromDicts l = .error e →
      (∃ n, e = .validation ("Unknown operator: " ++ n)) ∨ ∃ f, e = .typeError f := by
  induction l with
  | nil => intro e h; simp [opsFromDicts] at h
  | cons a rest ih =>
      intro e h
      unfold opsFromDicts at h
      cases ha : Operation.fromDict a with
      | error e2 =>
          rw [ha] at h
          exact (Except.error.inj h) ▸ fromDict_error_shape a e2 ha
      | ok o =>
          rw [ha] at h
          cases hr : opsFromDicts rest with
          | error e2 =>
              rw [hr] at h
              exact (Except.error.inj h) ▸ ih e2 hr
          | ok os => rw [hr] at h; exact absurd h (by simp)

theorem patch_validate_ok_iff (p : Patch) :
    (∃ b, p.validate = .ok b) ↔
      p.theta_diff ≤ THETA_DIFF_LIMIT ∧ p.purity = true ∧ p.cyclomatic ≤ CYCLOMATIC_LIMIT := by
  constructor
  · rintro ⟨b, hb⟩
    unfold Patch.validate at hb
    by_cases h1 : p.theta_diff > THETA_DIFF_LIMIT
    · rw [if_pos h1] at hb; exact absurd hb (by simp)
    rw [if_neg h1] at hb
    by_cases h2 : p.purity
    · rw [if_neg (by simp [h2])] at hb
      by_cases h3 : p.cyclomatic > CYCLOMATIC_LIMIT
      · rw [if_pos h3] at hb; exact absurd hb (by simp)
      · exact ⟨not_lt.mp h1, by simpa using h2, not_lt.mp h3⟩
    · rw [if_pos (by simpa using h2)] at hb; exact absurd hb (by simp)
  · rintro ⟨ha, hp, hc⟩
    refine ⟨true, ?_⟩
    unfold Patch.validate
    rw [if_neg (not_lt.mpr ha), if_neg (by simp [hp]), if_neg (not_lt.mpr hc)]

/-! ## Claim theorems -/

/-- The C2 counterexample input: a single op named `EXTRACT` — a member of
the fixed operator set — carrying a `delta` payload, with every other field
left to its default. -/
def extractDeltaPatch : PatchDict := { ops := [{ op := some "EXTRACT", delta := some 1 }] }

/-- C2 counterexample: every op name of the patch is in the fixed operator
set and every one of the three numeric conditions holds, yet the pipeline
fails — with the `TypeError` that `op_cls(name=name, **kwargs)` raises on a
payload keyword the `Extract` dataclass does not declare — refuting the
claimed "never for any other reason". -/
theorem c2_counterexample :
    (∀ o ∈ extractDeltaPatch.ops, opKnown o = true) ∧
    extractDeltaPatch.theta_diff.getD 0 ≤ THETA_DIFF_LIMIT ∧
    extractDeltaPatch.purity.getD true = true ∧
    extractDeltaPatch.cyclomatic.getD 0 ≤ CYCLOMATIC_LIMIT ∧
    buildAndValidate extractDeltaPatch =
      .error (.typeError "unexpected keyword argument delta") :=
  ⟨by decide, by decide, rfl, by decide, rfl⟩

/-- C2 (amended): building a patch from untyped input and validating it
fails exactly when `theta_diff > 10`, purity is false, `cyclomatic > 10`,
some op name is outside the fixed operator set, or some op carries a payload
keyword its operator dataclass does not declare (a `TypeError`) — never for
any other reason; and any construction failure — unknown operator or
`TypeError` — comes from `Patch.from_dict` itself, before any numeric check
runs. -/
theorem c2_validation_iff (d : PatchDict) :
    ((∃ b, buildAndValidate d = .ok b) ↔
      ((∀ o ∈ d.ops, opAccepted o = true) ∧ d.theta_diff.getD 0 ≤ THETA_DIFF_LIMIT ∧
        d.purity.getD true = true ∧ d.cyclomatic.getD 0 ≤ CYCLOMATIC_LIMIT)) ∧
    ((∃ o ∈ d.ops, opAccepted o = false) →
      ∃ e, buildAndValidate d = .error e ∧ Patch.fromDict d = .error e ∧
        ((∃ n, e = .validation ("Unknown operator: " ++ n)) ∨ ∃ f, e = .typeError f)) := by
  constructor
  · constructor
    · rintro ⟨b, hb⟩
      unfold buildAndValidate at hb
      cases hfd : Patch.fromDict d with
      | error e => rw [hfd] at hb; exact absurd hb (by simp)
      | ok p =>
          rw [hfd] at hb
          have hv := (patch_validate_ok_iff p).mp ⟨b, hb⟩
          unfold Patch.fromDict at hfd
          cases hos : opsFromDicts d.ops with
          | error e => rw [hos] at hfd; exact absurd hfd (by simp)
          | ok os =>
              rw [hos] at hfd
              simp only [Except.ok.injEq] at hfd
              subst hfd
              exact ⟨(opsFromDicts_ok_iff d.ops).mp ⟨os, hos⟩, hv⟩
    · rintro ⟨hall, h1, h2, h3⟩
      obtain ⟨os, hos⟩ := (opsFromDicts_ok_iff d.ops).mpr hall
      refine ⟨true, ?_⟩
      unfold buildAndValidate Patch.fromDict
      rw [hos]
      show Patch.validate _ = _
      unfold Patch.validate
      rw [if_neg (not_lt.mpr h1), if_neg (by simp [h2]), if_neg (not_lt.mpr h3)]
  · intro h
    obtain ⟨e, he⟩ := opsFromDicts_error d.ops h
    refine ⟨e, ?_, ?_, opsFromDicts_error_shape d.ops e he⟩
    · unfold buildAndValidate Patch.fromDict
      rw [he]
    · unfold Patch.fromDict
      rw [he]

/-- C2 witness: a patch dict whose only op is unknown (and whose
`theta_diff` also violates the numeric limit) is rejected at construction,
with the unknown-operator error. -/
theorem c2_validation_iff_witness :
    ∃ e, buildAndValidate { ops := [{ op := some "BAD_OP" }], theta_diff := some 99 } =
        .error e ∧
      Patch.fromDict { ops := [{ op := some "BAD_OP" }], theta_diff := some 99 } =
        .error e ∧
      ((∃ n, e = .validation ("Unknown operator: " ++ n)) ∨ ∃ f, e = .typeError f) :=
  (c2_validation_iff { ops := [{ op := some "BAD_OP" }], theta_diff := some 99 }).2
    ⟨{ op := some "BAD_OP" }, by simp, by decide⟩

/-- C10: whenever `Patch.from_dict` succeeds on a patch dict that omits the
`theta_diff`, `purity` and `cyclomatic` keys, the built patch carries the
defaults `theta_diff = 0.0`, `purity = True` and `cyclomatic = 0`, and
therefore passes the theta-diff, purity and cyclomatic checks of
`validate`. -/
theorem c10_from_dict_defaults (d : PatchDict)
    (ht : d.theta_diff = none) (hp : d.purity = none) (hc : d.cyclomatic = none)
    (p : Patch) (hok : Patch.fromDict d = .ok p) :
    p.theta_diff = 0 ∧ p.purity = true ∧ p.cyclomatic = 0 ∧ p.validate = .ok true := by
  unfold Patch.fromDict at hok
  cases hos : opsFromDicts d.ops with
  | error e => rw [hos] at hok; exact absurd hok (by simp)
  | ok os =>
      rw [hos] at hok
      simp only [Except.ok.injEq] at hok
      subst hok
      refine ⟨by simp [ht], by simp [hp], by simp [hc], ?_⟩
      unfold Patch.validate
      simp only [ht, hp, hc]
      norm_num [THETA_DIFF_LIMIT, CYCLOMATIC_LIMIT]

/-- The patch `Patch.from_dict` builds from a dict with a single `INLINE` op
and none of the three numeric keys. -/
def inlinePatchBuilt : Patch :=
  { target := [], ops := [{ name := "INLINE" }], theta_diff := 0, purity := true,
    cyclomatic := 0 }

/-- C10 witness. -/
theorem c10_from_dict_defaults_witness :
    inlinePatchBuilt.theta_diff = 0 ∧ inlinePatchBuilt.purity = true ∧
      inlinePatchBuilt.cyclomatic = 0 ∧ inlinePatchBuilt.validate = .ok true :=
  c10_from_dict_defaults { ops := [{ op := some "INLINE" }] } rfl rfl rfl
    inlinePatchBuilt rfl

/-- The two-`CONST_TUNE` patch body of executor Scenario C. -/
def constTuneOpV : Value := .vdict [("op", .vstr "CONST_TUNE")]

/-- C6: each `tick` increments the operation counter; it fails with the
op-limit error exactly when the incremented counter exceeds `max_ops`, and
with the RAM error exactly when the op-count check passed and the resident
set size exceeds the memory limit (so the memory check runs only after the
op-count check); and an execution attempt started with op limit 1 over two
operations completes the first and fails with the op-limit error on the
second. -/
theorem c6_tick_limits :
    (∀ st rss, ((tick st rss).1).ops = st.ops + 1) ∧
    (∀ st rss, ((tick st rss).2 = some .opLimit ↔ st.ops + 1 > st.max_ops)) ∧
    (∀ st rss, ((tick st rss).2 = some .ramLimit ↔
      (st.ops + 1 ≤ st.max_ops ∧ rss > st.mem_limit))) ∧
    runOps [constTuneOpV, constTuneOpV] (startLim 1 1024) 0 = (1, some .opLimit) := by
  refine ⟨?_, ?_, ?_, rfl⟩
  · intro st rss
    simp only [tick]
    split_ifs <;> rfl
  · intro st rss
    simp only [tick]
    split_ifs with h1 h2 <;> simp_all
  · intro st rss
    simp only [tick]
    split_ifs with h1 h2 <;> simp_all

/-- The whitelisted zone and the short-bounds patch of C9. -/
def zoneCT : Zone := { file := "f.py", function := "g", operators := ["CONST_TUNE"] }

def patchShortBounds : Value := .vdict [("type", .vstr "Patch"),
  ("target", .vdict [("file", .vstr "f.py"), ("function", .vstr "g")]),
  ("ops", .vlist [.vdict [("op", .vstr "CONST_TUNE"), ("delta", .vnum 0),
    ("bounds", .vlist [])]])]

/-- C9: on a whitelisted target, a `CONST_TUNE` op carrying a delta and a
bounds list with fewer than two elements makes `verify_patch` fail with the
out-of-range index access (`bounds[0]`), not with any named
`VerificationError`. -/
theorem c9_index_error_escape :
    verifyPatch [zoneCT] patchShortBounds = .error .indexError ∧
    (∀ msg, verifyPatch [zoneCT] patchShortBounds ≠ .error (.verification msg)) := by
  refine ⟨rfl, fun msg h => ?_⟩
  rw [show verifyPatch [zoneCT] patchShortBounds = .error .indexError from rfl] at h
  simp at h

/-! ### C3: the forbidden-content scan -/

/-- The strings the scanner actually visits inside one op dict: direct
string fields, strings inside nested dict values (at any depth), and
strings inside dicts that are elements of list values — but not strings
that are themselves elements of a list. -/
inductive ScannedStr : List (String × Value) → String → Prop where
  | here {fields : List (String × Value)} {k s : String} :
      (k, Value.vstr s) ∈ fields → ScannedStr fields s
  | inDict {fields : List (String × Value)} {k : String} {d : List (String × Value)}
      {s : String} :
      (k, Value.vdict d) ∈ fields → ScannedStr d s → ScannedStr fields s
  | inListDict {fields : List (String × Value)} {k : String} {l : List Value}
      {d : List (String × Value)} {s : String} :
      (k, Value.vlist l) ∈ fields → Value.vdict d ∈ l → ScannedStr d s →
      ScannedStr fields s

theorem checkFields_ok_entry {fields : List (String × Value)}
    (h : checkFields fields = .ok ()) :
    ∀ k v, (k, v) ∈ fields → checkEntry k v = .ok () := by
  induction fields with
  | nil => simp
  | cons a rest ih =>
      obtain ⟨ak, av⟩ := a
      intro k v hm
      unfold checkFields at h
      cases he : checkEntry ak av with
      | error e => rw [he] at h; exact absurd h (by simp)
      | ok u =>
          rw [he] at h
          rcases List.mem_cons.mp hm with hm | hm
          · injection hm with h1 h2
            subst h1; subst h2
            exact he
          · exact ih h k v hm

theorem checkElems_ok_dict {l : List Value} (h : checkElems l = .ok ()) :
    ∀ d, Value.vdict d ∈ l → checkFields d = .ok () := by
  induction l with
  | nil => simp
  | cons a rest ih =>
      intro d hm
      rcases List.mem_cons.mp hm with hm2 | hm2
      · subst hm2
        unfold checkElems at h
        cases hf : checkFields d with
        | error e => rw [hf] at h; exact absurd h (by simp)
        | ok u => cases u; exact rfl
      · clear hm
        cases a with
        | vdict d2 =>
            unfold checkElems at h
            cases hf : checkFields d2 with
            | error e => rw [hf] at h; exact absurd h (by simp)
            | ok u => rw [hf] at h; exact ih h d hm2
        | vnone => exact ih h d hm2
        | vbool b => exact ih h d hm2
        | vnum q => exact ih h d hm2
        | vstr s => exact ih h d hm2
        | vlist l2 => exact ih h d hm2

theorem scanned_forbidden_rejects {d : List (String × Value)} {s : String}
    (hs : ScannedStr d s) (hf : containsForbiddenImport s = true) :
    checkFields d ≠ .ok () := by
  induction hs with
  | here hm =>
      intro hok
      have hentry := checkFields_ok_entry hok _ _ hm
      simp [checkEntry, hf] at hentry
  | inDict hm _ ih =>
      intro hok
      exact ih hf (checkFields_ok_entry hok _ _ hm)
  | inListDict hm hd _ ih =>
      intro hok
      have hl : checkElems _ = .ok () := checkFields_ok_entry hok _ _ hm
      exact ih hf (checkElems_ok_dict hl _ hd)

/-- An op whose only payload is a forbidden string sitting directly inside a
list value. -/
def opListNested : Value := .vdict [("xs", .vlist [.vstr "import socket"])]

/-- An op where a sandbox-path violation on an earlier field precedes a
forbidden import on a later field. -/
def opPathFirst : Value :=
  .vdict [("path", .vstr "/etc/x"), ("code", .vstr "import socket")]

/-- C3 counterexample: (1) a forbidden-import string that is a direct
element of a list value is never scanned, so the patch passes the scan even
though the string matches the forbidden pattern — refuting "strings nested
inside collections (dicts and lists) at any depth"; (2) even for a scanned
forbidden string, the reported error is not always the forbidden-import
error: a `path` field violating the sandbox prefix on an earlier key is
reported first. -/
theorem c3_counterexample :
    (containsForbiddenImport "import socket" = true ∧
      checkForbiddenContent [opListNested] = .ok ()) ∧
    checkForbiddenContent [opPathFirst] =
      .error (.verification "I/O outside allowed directories") :=
  ⟨⟨rfl, rfl⟩, rfl⟩

/-- C3 (amended): the static scanner rejects a patch whenever any string it
scans — the string-valued fields of its op dicts, of dicts nested inside
dict values at any depth, and of dicts that are elements of list values —
contains a substring matching a forbidden import (the match itself is
case-insensitive); strings that are direct elements of lists are not
scanned, and the reported error is the forbidden-import error only when no
sandbox-path violation is encountered first. -/
theorem c3_amended (ops : List Value)
    (h : ∃ d s, Value.vdict d ∈ ops ∧ ScannedStr d s ∧ containsForbiddenImport s = true) :
    checkForbiddenContent ops ≠ .ok () := by
  obtain ⟨d, s, hdm, hscan, hforb⟩ := h
  intro hok
  exact scanned_forbidden_rejects hscan hforb (checkElems_ok_dict hok d hdm)

/-- C3 witness: the scanner rejects a forbidden import sitting in a dict
nested inside a list value. -/
theorem c3_amended_witness :
    checkForbiddenContent [Value.vdict [("ys",
      .vlist [.vdict [("code", .vstr "import socket")]])]] ≠ .ok () :=
  c3_amended _ ⟨[("ys", .vlist [.vdict [("code", .vstr "import socket")]])],
    "import socket", by simp,
    .inListDict (List.mem_singleton.mpr rfl) (List.mem_singleton.mpr rfl)
      (.here (List.mem_singleton.mpr rfl)), rfl⟩

/-! ### C4: the hash-chained logger -/

theorem dictGet_map_replace (d : List (String × Value)) (k : String) (v : Value)
    (h : d.any (fun p => p.1 = k) = true) :
    dictGet (d.map (fun p => if p.1 = k then (k, v) else p)) k = some v := by
  induction d with
  | nil => simp at h
  | cons a rest ih =>
      by_cases hk : a.1 = k
      · simp [dictGet, hk]
      · have h2 : rest.any (fun p => p.1 = k) = true := by
          simp only [List.any_cons, Bool.or_eq_true, decide_eq_true_eq] at h
          exact h.resolve_left hk
        simp only [List.map_cons, if_neg hk]
        unfold dictGet at ih ⊢
        rw [List.find?_cons_of_neg _ (by simpa using hk)]
        exact ih h2

theorem dictGet_map_replace_other (d : List (String × Value)) (k : String) (v : Value)
    (k2 : String) (hne : k2 ≠ k) :
    dictGet (d.map (fun p => if p.1 = k then (k, v) else p)) k2 = dictGet d k2 := by
  induction d with
  | nil => rfl
  | cons a rest ih =>
      by_cases hk : a.1 = k
      · have hk2 : ¬ a.1 = k2 := fun hc => hne ((hc ▸ hk : k2 = k))
        simp only [List.map_cons, if_pos hk]
        unfold dictGet at ih ⊢
        rw [List.find?_cons_of_neg _ (by simpa using Ne.symm hne),
          List.find?_cons_of_neg _ (by simpa using hk2)]
        exact ih
      · simp only [List.map_cons, if_neg hk]
        unfold dictGet at ih ⊢
        by_cases hk2 : a.1 = k2
        · rw [List.find?_cons_of_pos _ (by simpa using hk2),
            List.find?_cons_of_pos _ (by simpa using hk2)]
        · rw [List.find?_cons_of_neg _ (by simpa using hk2),
            List.find?_cons_of_neg _ (by simpa using hk2)]
          exact ih

theorem dictGet_append_of_not_mem (d : List (String × Value)) (k : String)
    (h : d.any (fun p => p.1 = k) = false) (l2 : List (String × Value)) :
    dictGet (d ++ l2) k = dictGet l2 k := by
  induction d with
  | nil => simp
  | cons a rest ih =>
      simp only [List.any_cons, Bool.or_eq_false_iff, decide_eq_false_iff_not] at h
      unfold dictGet at ih ⊢
      rw [List.cons_append, List.find?_cons_of_neg _ (by simpa using h.1)]
      exact ih (by simpa using h.2)

theorem dictGet_append_single_other (d : List (String × Value)) (k : String) (v : Value)
    (k2 : String) (hne : k2 ≠ k) :
    dictGet (d ++ [(k, v)]) k2 = dictGet d k2 := by
  induction d with
  | nil => simp [dictGet, Ne.symm hne]
  | cons a rest ih =>
      unfold dictGet at ih ⊢
      by_cases hk2 : a.1 = k2
      · rw [List.cons_append, List.find?_cons_of_pos _ (by simpa using hk2),
          List.find?_cons_of_pos _ (by simpa using hk2)]
      · rw [List.cons_append, List.find?_cons_of_neg _ (by simpa using hk2),
          List.find?_cons_of_neg _ (by simpa using hk2)]
        exact ih

theorem dictGet_setKV_self (d : List (String × Value)) (k : String) (v : Value) :
    dictGet (setKV d k v) k = some v := by
  unfold setKV
  by_cases h : d.any (fun p => p.1 = k) = true
  · rw [if_pos h]; exact dictGet_map_replace d k v h
  · rw [if_neg h]
    rw [dictGet_append_of_not_mem d k (Bool.not_eq_true _ ▸ h)]
    simp [dictGet]

theorem dictGet_setKV_other (d : List (String × Value)) (k : String) (v : Value)
    (k2 : String) (hne : k2 ≠ k) : dictGet (setKV d k v) k2 = dictGet d k2 := by
  unfold setKV
  by_cases h : d.any (fun p => p.1 = k) = true
  · rw [if_pos h]; exact dictGet_map_replace_other d k v k2 hne
  · rw [if_neg h]; exact dictGet_append_single_other d k v k2 hne

/-- C4: `log(record)` appends exactly one entry: the record merged with a
`prev` field equal to the current chain head and a `hash` field equal to
SHA-256 of the canonical key-sorted JSON serialisation of the record
concatenated with that `prev` value; the chain head then advances to the new
hash; and a fresh or unreadable log starts the chain from the 64-zero-hex
sentinel. -/
theorem c4_log_hash_chain :
    (∀ (st : LogState) (record : List (String × Value)),
      (logStep st record).entries = st.entries ++
        [setKV (setKV record "prev" (.vstr st.head)) "hash"
          (.vstr (sha256Hex (utf8Bytes (jsonDumps (.vdict record) ++ st.head))))] ∧
      (logStep st record).head =
        sha256Hex (utf8Bytes (jsonDumps (.vdict record) ++ st.head)) ∧
      dictGet ((logStep st record).entries.getLastD []) "prev" = some (.vstr st.head) ∧
      dictGet ((logStep st record).entries.getLastD []) "hash" =
        some (.vstr (sha256Hex (utf8Bytes (jsonDumps (.vdict record) ++ st.head))))) ∧
    initHead none = ZERO_HASH ∧
    initHead (some (.vstr "corrupt tail")) = ZERO_HASH ∧
    ZERO_HASH = String.mk (List.replicate 64 '0') := by
  refine ⟨fun st record => ⟨rfl, rfl, ?_, ?_⟩, rfl, rfl, rfl⟩
  · rw [show (logStep st record).entries = st.entries ++
      [setKV (setKV record "prev" (.vstr st.head)) "hash"
        (.vstr (sha256Hex (utf8Bytes (jsonDumps (.vdict record) ++ st.head))))] from rfl,
      List.getLastD_concat]
    rw [dictGet_setKV_other _ _ _ _ (by decide)]
    exact dictGet_setKV_self record "prev" (.vstr st.head)
  · rw [show (logStep st record).entries = st.entries ++
      [setKV (setKV record "prev" (.vstr st.head)) "hash"
        (.vstr (sha256Hex (utf8Bytes (jsonDumps (.vdict record) ++ st.head))))] from rfl,
      List.getLastD_concat]
    exact dictGet_setKV_self _ "hash" _

/-! ### C1: the admission check -/

/-- The target dict `verify_patch` compares zones against. -/
def patchTargetDict (patch : Value) : List (String × Value) :=
  match patch with
  | .vdict pd => targetAsDict ((dictGet pd "target").getD .vnone)
  | _ => []

/-- The ops list `verify_patch` iterates over. -/
def patchOps (patch : Value) : List Value :=
  match patch with
  | .vdict pd => opsAsList ((dictGet pd "ops").getD (.vlist []))
  | _ => []

/-- Whether an op dict carries a name in the kernel whitelist
`ALLOWED_OPS`. -/
def opNameAllowed (op : Value) : Bool :=
  match op with
  | .vdict d =>
      match (dictGet d "op").getD .vnone with
      | .vstr n => n ∈ ALLOWED_OPS
      | _ => false
  | _ => false

theorem checkOneOp_ok {op : Value} (h : checkOneOp op = .ok ()) :
    opNameAllowed op = true := by
  cases op with
  | vdict d =>
      simp only [checkOneOp] at h
      unfold opNameAllowed
      cases hv : (dictGet d "op").getD .vnone with
      | vstr n =>
          rw [hv] at h
          simp only [] at h
          by_cases hm : n ∈ ALLOWED_OPS
          · show (match (dictGet d "op").getD Value.vnone with
              | Value.vstr n => (decide (n ∈ ALLOWED_OPS) : Bool)
              | _ => false) = true
            rw [hv]
            simpa using hm
          · rw [if_neg hm] at h; exact absurd h (by simp)
      | vnone => rw [hv] at h; simp at h
      | vbool b => rw [hv] at h; simp at h
      | vnum q => rw [hv] at h; simp at h
      | vlist l => rw [hv] at h; simp at h
      | vdict d2 => rw [hv] at h; simp at h
  | vnone => simp [checkOneOp, dictGet] at h
  | vbool b => simp [checkOneOp, dictGet] at h
  | vnum q => simp [checkOneOp, dictGet] at h
  | vstr s => simp [checkOneOp, dictGet] at h
  | vlist l => simp [checkOneOp, dictGet] at h

theorem checkOpsLoop_ok {l : List Value} (h : checkOpsLoop l = .ok ()) :
    ∀ op ∈ l, checkOneOp op = .ok () := by
  induction l with
  | nil => simp
  | cons a rest ih =>
      intro op hm
      unfold checkOpsLoop at h
      cases ha : checkOneOp a with
      | error e => rw [ha] at h; exact absurd h (by simp)
      | ok u =>
          rw [ha] at h
          rcases List.mem_cons.mp hm with hm2 | hm2
          · subst hm2; cases u; exact ha
          · exact ih h op hm2

theorem schemaOk_vdict {patch : Value} (h : validatePatchSchema patch = .ok ()) :
    ∃ pd, patch = .vdict pd ∧ ∃ tv, dictGet pd "target" = some tv := by
  cases patch with
  | vdict pd =>
      refine ⟨pd, rfl, ?_⟩
      simp only [validatePatchSchema] at h
      split_ifs at h with h1 h2 h3
      cases ht : dictGet pd "target" with
      | none => rw [ht] at h2; exact absurd rfl h2
      | some tv => exact ⟨tv, rfl⟩
  | vnone => simp [validatePatchSchema] at h
  | vbool b => simp [validatePatchSchema] at h
  | vnum q => simp [validatePatchSchema] at h
  | vstr s => simp [validatePatchSchema] at h
  | vlist l => simp [validatePatchSchema] at h

/-- The zone and patch of the C1 counterexample: the zone whitelists the
target but allows no operators, while the patch uses `EXTRACT`. -/
def zoneNoOps : Zone := { file := "f.py", function := "g", operators := [] }

def patchExtract : Value := .vdict [("type", .vstr "Patch"),
  ("target", .vdict [("file", .vstr "f.py"), ("function", .vstr "g")]),
  ("ops", .vlist [.vdict [("op", .vstr "EXTRACT")]])]

/-- C1 counterexample: `verify_patch` accepts a patch whose single operator
`EXTRACT` is not in the matching zone's allowed operator set (the zone's set
is empty) — the per-op check consults only the global kernel whitelist, so
the claim's "every operator name … is a member of that matching zone's
allowed operator set" fails. -/
theorem c1_counterexample :
    verifyPatch [zoneNoOps] patchExtract = .ok () ∧
    zoneMatches zoneNoOps (patchTargetDict patchExtract) = true ∧
    "EXTRACT" ∉ zoneNoOps.operators ∧
    opNameAllowed (Value.vdict [("op", .vstr "EXTRACT")]) = true := by
  exact ⟨rfl, rfl, by simp [zoneNoOps], rfl⟩

/-- C1 (amended): `verify_patch` succeeds only if at least one zone matches
the patch's target (file, function) exactly and every operator name
appearing in the patch's ops is in the kernel's global `ALLOWED_OPS`
whitelist — the matching zone's own operator set is not consulted, and
several matching zones are not rejected; a schema-valid patch whose target
matches no zone is rejected with "target not whitelisted" regardless of its
operators. -/
theorem verifyTargetAndOps_ok (zones : List Zone) (td pd : List (String × Value))
    (h : verifyTargetAndOps zones td pd = .ok ()) :
    zones.any (fun z => zoneMatches z td) = true ∧
    ∀ op ∈ opsAsList ((dictGet pd "ops").getD (.vlist [])), opNameAllowed op = true := by
  unfold verifyTargetAndOps at h
  by_cases hz : zones.any (fun z => zoneMatches z td) = true
  · rw [if_neg (by simp [hz])] at h
    refine ⟨hz, ?_⟩
    intro op hop
    simp only [] at h
    by_cases he : (opsAsList ((dictGet pd "ops").getD (.vlist []))).isEmpty = true
    · rw [if_pos he] at h
      exact absurd h (by simp)
    · rw [if_neg he] at h
      cases hcl : checkOpsLoop (opsAsList ((dictGet pd "ops").getD (.vlist []))) with
      | error e => rw [hcl] at h; exact absurd h (by simp)
      | ok u2 =>
          cases u2
          exact checkOneOp_ok (checkOpsLoop_ok hcl op hop)
  · rw [if_pos (by simpa using hz)] at h
    exact absurd h (by simp)

theorem verifyTargetAndOps_nomatch (zones : List Zone) (td pd : List (String × Value))
    (hz : zones.any (fun z => zoneMatches z td) = false) :
    verifyTargetAndOps zones td pd = .error (.verification "target not whitelisted") := by
  unfold verifyTargetAndOps
  rw [if_pos (by simp [hz])]

theorem c1_admission (zones : List Zone) (patch : Value) :
    (verifyPatch zones patch = .ok () →
      zones.any (fun z => zoneMatches z (patchTargetDict patch)) = true ∧
      ∀ op ∈ patchOps patch, opNameAllowed op = true) ∧
    (validatePatchSchema patch = .ok () →
      zones.any (fun z => zoneMatches z (patchTargetDict patch)) = false →
      verifyPatch zones patch = .error (.verification "target not whitelisted")) := by
  constructor
  · intro h
    unfold verifyPatch at h
    cases hs : validatePatchSchema patch with
    | error e => rw [hs] at h; exact absurd h (by simp)
    | ok u =>
        cases u
        rw [hs] at h
        obtain ⟨pd, rfl, tv, ht⟩ := schemaOk_vdict hs
        simp only [] at h
        rw [ht] at h
        simp only [] at h
        have hmain := verifyTargetAndOps_ok zones (targetAsDict tv) pd h
        constructor
        · simpa [patchTargetDict, ht] using hmain.1
        · intro op hop
          exact hmain.2 op (by simpa [patchOps] using hop)
  · intro hs hz
    obtain ⟨pd, hpe, tv, ht⟩ := schemaOk_vdict hs
    subst hpe
    unfold verifyPatch
    rw [hs]
    simp only []
    rw [ht]
    simp only []
    apply verifyTargetAndOps_nomatch
    simpa [patchTargetDict, ht] using hz

/-- C1 witness: Scenario A on a concrete patch — an empty zone list matches
no target, and the patch is rejected with "target not whitelisted". -/
theorem c1_admission_witness :
    verifyPatch [] patchExtract = .error (.verification "target not whitelisted") :=
  (c1_admission [] patchExtract).2 rfl rfl

/-! ### C5: the selector -/

/-- C5: the selector returns at most one candidate (first conjunct), and
whenever the previous elite passes the threshold gate and no feasible
candidate dominates it, the elite itself is returned as the winner — the
conservative-elitism short circuit, which returns before the non-dominated
sort path is taken. -/
theorem c5_selector :
    (∀ cands pb, (select cands pb).toList.length ≤ 1) ∧
    (∀ cands (e : Candidate), meetsThresholds e = true →
      (∀ c ∈ cands.filter meetsThresholds, dominates c e = false) →
      select cands (some e) = some e) := by
  constructor
  · intro cands pb
    cases select cands pb <;> simp
  · intro cands e h1 h2
    have hany : (cands.filter meetsThresholds).any (fun c => dominates c e) = false := by
      rw [List.any_eq_false]
      intro c hc
      simp [h2 c hc]
    unfold select
    simp only []
    rw [h1]
    simp [hany]

/-- C5 witness: Scenario-D-flavoured input — the elite `{err 1, cost 1}`
survives against a worse challenger `{err 2, cost 2}`. -/
theorem c5_selector_witness :
    select [{ objectives := [("err", 2), ("cost", 2)] }]
      (some { objectives := [("err", 1), ("cost", 1)] }) =
      some { objectives := [("err", 1), ("cost", 1)] } :=
  c5_selector.2 [{ objectives := [("err", 2), ("cost", 2)] }]
    { objectives := [("err", 1), ("cost", 1)] } rfl (by decide)

/-! ### C7: bounded meta-mutation -/

theorem map_fst_pairmap (l : List (String × ℚ)) (g : (String × ℚ) → ℚ) :
    (l.map (fun p => (p.1, g p))).map Prod.fst = l.map Prod.fst := by
  induction l with
  | nil => rfl
  | cons a rest ih => simp only [List.map_cons, ih]

theorem bump_fst (dist : List (String × ℚ)) (key : String) (dl : ℚ) :
    (bump dist key dl).map Prod.fst = dist.map Prod.fst := by
  unfold bump
  induction dist with
  | nil => rfl
  | cons a rest ih =>
      simp only [List.map_cons, ih]
      by_cases h : a.1 = key <;> simp [h]

theorem renormalize_fst (dist : List (String × ℚ)) :
    (renormalize dist).map Prod.fst = dist.map Prod.fst := by
  unfold renormalize
  simp only []
  split_ifs with h0 ht
  · rfl
  · exact map_fst_pairmap dist _
  · rw [map_fst_pairmap _ _, map_fst_pairmap _ _]

/-- Value bounds and exact unit sum of a renormalised nonempty
distribution. -/
theorem renormalize_props (dist : List (String × ℚ)) (h : ¬ dist.isEmpty = true) :
    (∀ p ∈ renormalize dist, 0 ≤ p.2 ∧ p.2 ≤ 1) ∧
    ((renormalize dist).map (fun p => p.2)).sum = 1 := by
  have hlen : dist.length ≠ 0 := by
    intro hc
    exact h (by simpa [List.isEmpty_iff, List.length_eq_zero] using hc)
  unfold renormalize
  rw [if_neg h]
  simp only []
  have hnonneg : ∀ p ∈ dist.map (fun p => (p.1, if p.2 < 0 then 0 else p.2)), (0:ℚ) ≤ p.2 := by
    intro p hp
    obtain ⟨q, hq, rfl⟩ := List.mem_map.mp hp
    dsimp only
    split_ifs with hq2
    · exact le_refl 0
    · exact not_lt.mp hq2
  have htotnn : (0:ℚ) ≤
      ((dist.map (fun p => (p.1, if p.2 < 0 then 0 else p.2))).map (fun p => p.2)).sum := by
    apply List.sum_nonneg
    intro x hx
    obtain ⟨p, hp, rfl⟩ := List.mem_map.mp hx
    exact hnonneg p hp
  split_ifs with h0
  · constructor
    · intro p hp
      obtain ⟨q, hq, rfl⟩ := List.mem_map.mp hp
      dsimp only
      have hl1 : (1:ℚ) ≤ (dist.length : ℚ) := by
        exact_mod_cast Nat.one_le_iff_ne_zero.mpr hlen
      constructor
      · positivity
      · rw [div_le_one (by linarith)]
        linarith
    · rw [List.map_map]
      rw [show ((fun p : String × ℚ => p.2) ∘
          (fun q : String × ℚ => (q.1, (1:ℚ)/(dist.length : ℚ)))) =
          (fun _ : String × ℚ => (1:ℚ)/(dist.length : ℚ)) from rfl]
      rw [List.map_const', List.sum_replicate, nsmul_eq_mul]
      rw [mul_one_div]
      exact div_self (by exact_mod_cast hlen)
  · have htpos : (0:ℚ) <
        ((dist.map (fun p => (p.1, if p.2 < 0 then 0 else p.2))).map (fun p => p.2)).sum :=
      lt_of_le_of_ne htotnn (Ne.symm h0)
    constructor
    · intro p hp
      obtain ⟨q, hq, rfl⟩ := List.mem_map.mp hp
      dsimp only
      constructor
      · exact div_nonneg (hnonneg q hq) htotnn
      · rw [div_le_one htpos]
        apply List.single_le_sum
        · intro x hx
          obtain ⟨r, hr, rfl⟩ := List.mem_map.mp hx
          exact hnonneg r hr
        · exact List.mem_map.mpr ⟨q, hq, rfl⟩
    · rw [List.map_map]
      rw [show ((fun p : String × ℚ => p.2) ∘ (fun q : String × ℚ =>
          (q.1, q.2 / ((dist.map (fun p => (p.1, if p.2 < 0 then 0 else p.2))).map
            (fun p => p.2)).sum))) = (fun q : String × ℚ =>
          q.2 * (((dist.map (fun p => (p.1, if p.2 < 0 then 0 else p.2))).map
            (fun p => p.2)).sum)⁻¹) from by
        funext q
        simp [div_eq_mul_inv]]
      rw [List.sum_map_mul_right]
      exact mul_inv_cancel₀ h0

theorem any_fst_map (l : List (String × ℚ)) (pb : String → Bool) :
    l.any (fun q => pb q.1) = (l.map Prod.fst).any pb := by
  induction l with
  | nil => rfl
  | cons a rest ih => simp [ih]

theorem any_fst_congr (l1 l2 : List (String × ℚ))
    (hf : l1.map Prod.fst = l2.map Prod.fst) (pb : String → Bool) :
    l1.any (fun q => pb q.1) = l2.any (fun q => pb q.1) := by
  rw [any_fst_map, any_fst_map, hf]

theorem renormalize_bump_length (dist : List (String × ℚ)) (k : String) (dl : ℚ) :
    (renormalize (bump dist k dl)).length = dist.length := by
  have h1 := renormalize_fst (bump dist k dl)
  have h2 := bump_fst dist k dl
  have := h1.trans h2
  calc (renormalize (bump dist k dl)).length
      = ((renormalize (bump dist k dl)).map Prod.fst).length := (List.length_map _ _).symm
    _ = ((dist.map Prod.fst)).length := by rw [this]
    _ = dist.length := List.length_map _ _

/-- The elementwise bound and unit-sum conditions of a renormalised bumped
distribution, packaged for the validator. -/
theorem renormalized_valid (dist : List (String × ℚ)) (k : String) (dl : ℚ)
    (h : ¬ dist.isEmpty = true) :
    ¬ ((renormalize (bump dist k dl)).any (fun p => p.2 < 0 ∨ p.2 > 1) = true ∨
      ratAbs ((((renormalize (bump dist k dl)).map (fun p => p.2)).sum) - 1) >
        WEIGHT_TOLERANCE) := by
  have hb : ¬ (bump dist k dl).isEmpty = true := by
    intro hc
    apply h
    have : (bump dist k dl).length = dist.length := by
      unfold bump
      exact List.length_map _ _
    simp only [List.isEmpty_iff, ← List.length_eq_zero] at hc ⊢
    omega
  obtain ⟨hbounds, hsum⟩ := renormalize_props (bump dist k dl) hb
  intro hc
  rcases hc with hc | hc
  · obtain ⟨p, hp, hbad⟩ := List.any_eq_true.mp hc
    obtain ⟨h1, h2⟩ := hbounds p hp
    rcases of_decide_eq_true hbad with hb1 | hb1
    · exact absurd hb1 (not_lt.mpr h1)
    · exact absurd hb1 (not_lt.mpr h2)
  · rw [hsum] at hc
    norm_num [WEIGHT_TOLERANCE, ratAbs] at hc

/-- C7: on any valid spec, `propose_mutation` (with its random draws made
explicit) returns a spec whose `selection_strategy`, `diff_max` and
`forbidden` equal the input's, and whose `population_cap` is the input's
moved by exactly `±1` and clamped into `[1, MAX_POPULATION_CAP]`; in
particular a spec at the cap of 100 never yields a result above 100. -/
theorem c7_propose_mutation (spec : MetaSpec) (wIdx : ℕ) (wDelta : ℚ) (mIdx : ℕ)
    (mDelta : ℚ) (popUp : Bool) (hvalid : spec.validate = .ok true) :
    ∃ s2, proposeMutation spec wIdx wDelta mIdx mDelta popUp = .ok s2 ∧
      s2.selection_strategy = spec.selection_strategy ∧
      s2.diff_max = spec.diff_max ∧
      s2.forbidden = spec.forbidden ∧
      (∃ d : Int, (d = 1 ∨ d = -1) ∧
        s2.population_cap = max 1 (min MAX_POPULATION_CAP (spec.population_cap + d))) ∧
      (spec.population_cap = 100 → s2.population_cap ≤ 100) := by
  unfold MetaSpec.validate at hvalid
  split_ifs at hvalid with h1 h2 h3 h4 h5 h6 h7 h8 h9
  all_goals first
  | exact Except.noConfusion hvalid
  | clear hvalid
  set w1 := renormalize (bump spec.weights (chooseKey spec.weights wIdx) wDelta) with hw1
  set m1 := renormalize
    (bump spec.operator_mix (chooseKey spec.operator_mix mIdx) mDelta) with hm1
  set cap2 := max 1 (min MAX_POPULATION_CAP
    (spec.population_cap + (if popUp then 1 else -1))) with hcap2
  set s2 : MetaSpec := ({ spec with weights := w1, operator_mix := m1, population_cap := cap2 } : MetaSpec) with hs2
  have hcapb : 0 < cap2 ∧ cap2 ≤ MAX_POPULATION_CAP := by
    constructor
    · exact lt_of_lt_of_le Int.one_pos (le_max_left _ _)
    · exact max_le (by norm_num [MAX_POPULATION_CAP]) (min_le_left _ _)
  have hw1f : w1.map Prod.fst = spec.weights.map Prod.fst :=
    (renormalize_fst _).trans (bump_fst _ _ _)
  have hm1f : m1.map Prod.fst = spec.operator_mix.map Prod.fst :=
    (renormalize_fst _).trans (bump_fst _ _ _)
  have hw1ne : ¬ w1.isEmpty = true := by
    intro hc
    apply h1
    have := renormalize_bump_length spec.weights (chooseKey spec.weights wIdx) wDelta
    rw [← hw1] at this
    simp only [List.isEmpty_iff, ← List.length_eq_zero] at hc ⊢
    omega
  have hm1ne : ¬ m1.isEmpty = true := by
    intro hc
    apply h3
    have := renormalize_bump_length spec.operator_mix (chooseKey spec.operator_mix mIdx) mDelta
    rw [← hm1] at this
    simp only [List.isEmpty_iff, ← List.length_eq_zero] at hc ⊢
    omega
  have hval : s2.validate = .ok true := by
    unfold MetaSpec.validate
    rw [if_neg (show ¬ s2.weights.isEmpty = true from hw1ne)]
    rw [if_neg (show ¬ (s2.weights.any (fun p => p.2 < 0 ∨ p.2 > 1) = true ∨
      ratAbs (((s2.weights.map (fun p => p.2)).sum) - 1) > WEIGHT_TOLERANCE) from
      renormalized_valid spec.weights (chooseKey spec.weights wIdx) wDelta h1)]
    rw [if_neg (show ¬ s2.operator_mix.isEmpty = true from hm1ne)]
    rw [if_neg (show ¬ s2.operator_mix.any (fun p => p.1 ∉ OPERATOR_NAMES) = true from by
      have := any_fst_congr m1 spec.operator_mix hm1f
        (fun k => decide (k ∉ OPERATOR_NAMES))
      intro hc
      exact h4 ((this ▸ hc : _)))]
    rw [if_neg (show ¬ (s2.operator_mix.any (fun p => p.2 < 0) = true ∨
      ratAbs (((s2.operator_mix.map (fun p => p.2)).sum) - 1) > WEIGHT_TOLERANCE) from by
      have hm := renormalized_valid spec.operator_mix
        (chooseKey spec.operator_mix mIdx) mDelta h3
      intro hc
      apply hm
      rcases hc with hc | hc
      · left
        obtain ⟨p, hp, hbad⟩ := List.any_eq_true.mp hc
        exact List.any_eq_true.mpr ⟨p, hp, by
          have := of_decide_eq_true hbad
          exact decide_eq_true (Or.inl this)⟩
      · right
        exact hc)]
    rw [if_neg (not_not_intro hcapb)]
    rw [if_neg (show ¬ s2.selection_strategy ≠ "elitism" from h7)]
    rw [if_neg (show ¬ s2.diff_max > DIFF_LIMIT from h8)]
    rw [if_neg (show ¬ ¬ s2.forbidden.isEmpty = true from not_not_intro h9)]
  have hlenw : 1 ≤ spec.weights.length := by
    rcases Nat.eq_zero_or_pos spec.weights.length with hz | hp
    · exact absurd (by simpa [List.isEmpty_iff, List.length_eq_zero] using hz) h1
    · exact hp
  have hlenm : 1 ≤ spec.operator_mix.length := by
    rcases Nat.eq_zero_or_pos spec.operator_mix.length with hz | hp
    · exact absurd (by simpa [List.isEmpty_iff, List.length_eq_zero] using hz) h3
    · exact hp
  refine ⟨s2, ?_, rfl, rfl, rfl,
    ⟨if popUp then 1 else -1, by cases popUp <;> simp, rfl⟩, fun hc => ?_⟩
  · unfold proposeMutation
    rw [if_pos hlenw, if_pos hlenm]
    show (match s2.validate with
      | .ok _ => Except.ok s2
      | .error e => Except.error e) = Except.ok s2
    rw [hval]
  · exact hcapb.2

/-- A concrete valid spec sitting exactly at the population cap. -/
def specAtCap : MetaSpec :=
  { weights := [("a", 1)], operator_mix := [("CONST_TUNE", 1)], population_cap := 100 }

theorem specAtCap_valid : specAtCap.validate = .ok true := by
  unfold MetaSpec.validate specAtCap
  norm_num [OPERATOR_NAMES, MAX_POPULATION_CAP, WEIGHT_TOLERANCE, ratAbs, DIFF_LIMIT]

/-- C7 witness: a concrete valid spec at the population cap. -/
theorem c7_propose_mutation_witness :
    ∃ s2, proposeMutation specAtCap 0 (1/2) 0 (1/2) true = .ok s2 ∧
      s2.selection_strategy = "elitism" ∧ s2.diff_max = DIFF_LIMIT ∧ s2.forbidden = [] ∧
      s2.population_cap ≤ 100 := by
  obtain ⟨s2, hrun, hstrat, hdiff, hforb, _, hcap⟩ :=
    c7_propose_mutation specAtCap 0 (1/2) 0 (1/2) true specAtCap_valid
  exact ⟨s2, hrun, hstrat, hdiff, hforb, hcap rfl⟩

/-! ### C8: snapshot replay -/

/-- The final `err` a processed snapshot contributes (zero for an empty
history, which the source skips). -/
def finalErr (s : Snapshot) : ℚ :=
  match s.history with
  | [] => 0
  | first :: hrest => ((first :: hrest).getLastD first).err.getD 0

/-- The final `cost` a processed snapshot contributes. -/
def finalCost (s : Snapshot) : ℚ :=
  match s.history with
  | [] => 0
  | first :: hrest => ((first :: hrest).getLastD first).cost.getD 0

theorem replayGo_ok (snaps : List Snapshot) :
    ∀ (te tc : ℚ), (∀ s ∈ snaps, s.meta.validate = .ok true) →
    (∀ s ∈ snaps, regressesB s = false) →
    replayGo snaps te tc =
      .ok (te + (snaps.map finalErr).sum, tc + (snaps.map finalCost).sum) := by
  induction snaps with
  | nil => intro te tc _ _; simp [replayGo]
  | cons s rest ih =>
      intro te tc hv hr
      unfold replayGo
      rw [hv s (by simp)]
      simp only []
      cases hh : s.history with
      | nil =>
          rw [ih te tc (fun x hx => hv x (by simp [hx])) (fun x hx => hr x (by simp [hx]))]
          have he : finalErr s = 0 := by unfold finalErr; rw [hh]
          have hc : finalCost s = 0 := by unfold finalCost; rw [hh]
          simp [he, hc]
      | cons f hrest =>
          simp only []
          have hreg := hr s (by simp)
          unfold regressesB at hreg
          rw [hh] at hreg
          simp only [] at hreg
          rw [if_neg (of_decide_eq_false hreg)]
          rw [ih _ _ (fun x hx => hv x (by simp [hx])) (fun x hx => hr x (by simp [hx]))]
          have he : finalErr s = ((f :: hrest).getLastD f).err.getD 0 := by
            unfold finalErr; rw [hh]
          have hc : finalCost s = ((f :: hrest).getLastD f).cost.getD 0 := by
            unfold finalCost; rw [hh]
          simp only [List.map_cons, List.sum_cons, he, hc]
          rw [add_assoc, add_assoc]

theorem replayGo_reg (snaps : List Snapshot) :
    ∀ (te tc : ℚ), (∀ s ∈ snaps, s.meta.validate = .ok true) →
    (∃ s ∈ snaps, regressesB s = true) →
    replayGo snaps te tc = .error .regression := by
  induction snaps with
  | nil => rintro te tc _ ⟨s, hs, _⟩; simp at hs
  | cons s rest ih =>
      rintro te tc hv hex
      unfold replayGo
      rw [hv s (by simp)]
      simp only []
      by_cases hrs : regressesB s = true
      · cases hh : s.history with
        | nil =>
            unfold regressesB at hrs
            rw [hh] at hrs
            simp at hrs
        | cons f hrest =>
            simp only []
            unfold regressesB at hrs
            rw [hh] at hrs
            simp only [] at hrs
            rw [if_pos (of_decide_eq_true hrs)]
      · have hex2 : ∃ x ∈ rest, regressesB x = true := by
          obtain ⟨x, hx, hrx⟩ := hex
          rcases List.mem_cons.mp hx with rfl | hx2
          · exact absurd hrx hrs
          · exact ⟨x, hx2, hrx⟩
        cases hh : s.history with
        | nil => exact ih te tc (fun x hx => hv x (by simp [hx])) hex2
        | cons f hrest =>
            simp only []
            have hreg : regressesB s = false := by
              cases hb : regressesB s
              · rfl
              · exact absurd hb hrs
            unfold regressesB at hreg
            rw [hh] at hreg
            simp only [] at hreg
            rw [if_neg (of_decide_eq_false hreg)]
            exact ih _ _ (fun x hx => hv x (by simp [hx])) hex2

/-- A snapshot whose embedded meta spec is invalid (default spec: empty
weights) but whose single-entry history shows no regression. -/
def badMetaSnap : Snapshot := { history := [{ err := some 1, cost := some 1 }] }

/-- C8 counterexample: a snapshot with no metric regression but an invalid
embedded MetaSpec makes `replay_snapshots` abort with the meta-validation
error — it neither raises `RegressionDetected` nor returns the averages,
refuting the claim's "otherwise it returns the averages". -/
theorem c8_counterexample :
    regressesB badMetaSnap = false ∧
    replaySnapshots 1 [("a", badMetaSnap)] =
      .error (.metaInvalid "Weights must be provided") ∧
    ∀ m, replaySnapshots 1 [("a", badMetaSnap)] ≠ .ok m := by
  refine ⟨rfl, rfl, fun m hm => ?_⟩
  rw [show replaySnapshots 1 [("a", badMetaSnap)] =
    .error (.metaInvalid "Weights must be provided") from rfl] at hm
  simp at hm

/-- C8 (amended): provided every processed snapshot's embedded MetaSpec
passes validation, `replay_snapshots` processes up to `k` snapshot files in
lexicographic order and fails with `RegressionDetected` — without returning
any averages — whenever some processed snapshot's last history entry has an
`err` or `cost` strictly greater than its first entry's; otherwise it
returns the sums of the processed snapshots' final `err` (robustness) and
final `cost` (safety) divided by the number of processed files (snapshots
with empty histories contribute zero but still count in the
denominator). -/
theorem c8_replay (k : ℕ) (files : List (String × Snapshot))
    (hv : ∀ p ∈ (sortByName files).take k, p.2.meta.validate = .ok true) :
    ((∃ p ∈ (sortByName files).take k, regressesB p.2 = true) →
      replaySnapshots k files = .error .regression) ∧
    ((∀ p ∈ (sortByName files).take k, regressesB p.2 = false) →
      replaySnapshots k files = .ok
        { robustness := if ((sortByName files).take k).length = 0 then 0 else
            (((sortByName files).take k).map (fun p => finalErr p.2)).sum /
              ((sortByName files).take k).length,
          safety := if ((sortByName files).take k).length = 0 then 0 else
            (((sortByName files).take k).map (fun p => finalCost p.2)).sum /
              ((sortByName files).take k).length }) := by
  constructor
  · intro hex
    unfold replaySnapshots
    simp only []
    rw [replayGo_reg (((sortByName files).take k).map (fun p => p.2)) 0 0
      (by
        intro s hs
        obtain ⟨p, hp, rfl⟩ := List.mem_map.mp hs
        exact hv p hp)
      (by
        obtain ⟨p, hp, hrp⟩ := hex
        exact ⟨p.2, List.mem_map.mpr ⟨p, hp, rfl⟩, hrp⟩)]
  · intro hall
    unfold replaySnapshots
    simp only []
    rw [replayGo_ok (((sortByName files).take k).map (fun p => p.2)) 0 0
      (by
        intro s hs
        obtain ⟨p, hp, rfl⟩ := List.mem_map.mp hs
        exact hv p hp)
      (by
        intro s hs
        obtain ⟨p, hp, rfl⟩ := List.mem_map.mp hs
        exact hall p hp)]
    simp only [List.map_map, List.length_map, zero_add]
    rfl

/-- Snapshots for the C8 witness: both metas valid, the second one
regressing on `err`. -/
def snapGood : Snapshot :=
  { meta := specAtCap, history := [{ err := some 1, cost := some 1 }] }

def snapRegresses : Snapshot :=
  { meta := specAtCap,
    history := [{ err := some 1, cost := some 1 }, { err := some 2, cost := some 1 }] }

/-- C8 witness: two valid snapshots, the lexicographically second regressing
on `err` — the replay fails with the regression error and no averages. -/
theorem c8_replay_witness :
    replaySnapshots 2 [("b", snapRegresses), ("a", snapGood)] = .error .regression := by
  have hsort : (sortByName [("b", snapRegresses), ("a", snapGood)]).take 2 =
      [("a", snapGood), ("b", snapRegresses)] := rfl
  refine (c8_replay 2 [("b", snapRegresses), ("a", snapGood)] ?_).1 ?_
  · intro p hp
    rw [hsort] at hp
    rcases List.mem_cons.mp hp with rfl | hp2
    · exact specAtCap_valid
    · rcases List.mem_cons.mp hp2 with rfl | hp3
      · exact specAtCap_valid
      · simp at hp3
  · refine ⟨("b", snapRegresses), ?_, rfl⟩
    rw [hsort]
    simp

end Graine
